import Mathlib

/-!
Verification development for the Alphaminr newsletter generator
(`app.py`, `cron_endpoint.py`, `mcp_client.py`).

Python strings are modelled as `List Char`; `None`-able values as `Option`.
Every definition below is a shallow embedding of the function of the same
name in the source (ASCII fragment of Python semantics: `str.strip`,
`str.split`, `str.replace`, `str.startswith`, `in`, and the concrete regex
of `process_story_formatting`).
-/

set_option maxRecDepth 10000

abbrev Chars := List Char

/-- The apostrophe character (allowed inside the regex company-name class). -/
def apos : Char := Char.ofNat 39

/-- The opening-brace character. -/
def lbrace : Char := Char.ofNat 123

/-- ASCII whitespace as recognised by Python `str.strip` / regex `\s`. -/
def isPyWs (c : Char) : Bool :=
  c = ' ' || c = '\t' || c = '\n' || c = '\r' || c = '\x0b' || c = '\x0c'

/-- Left part of Python `str.strip`: drop leading whitespace. -/
def stripL (s : Chars) : Chars := s.dropWhile isPyWs

/-- Right part of Python `str.strip`: drop trailing whitespace. -/
def stripR (s : Chars) : Chars := (s.reverse.dropWhile isPyWs).reverse

/-- Python `str.strip`: drop whitespace at both ends. -/
def pstrip (s : Chars) : Chars := stripR (stripL s)

/-- Python `str.split(sep)` for a one-character separator: also produces
empty chunks, and `[[]]` on the empty string. -/
def pySplit (sep : Char) : Chars → List Chars
  | [] => [[]]
  | c :: s =>
    if c = sep then [] :: pySplit sep s
    else
      match pySplit sep s with
      | [] => [[c]]
      | r :: rs => (c :: r) :: rs

/-- Join chunks with a separator string (inverse of splitting). -/
def joinWith (sep : Chars) : List Chars → Chars
  | [] => []
  | [x] => x
  | x :: y :: xs => x ++ sep ++ joinWith sep (y :: xs)

/-- Python `str.replace(pat, rep)`: replace every non-overlapping occurrence,
scanning left to right (used with a nonempty `pat` throughout the source). -/
def replaceAll (pat rep : Chars) : Chars → Chars
  | [] => []
  | c :: s =>
    if pat ≠ [] ∧ pat <+: (c :: s) then
      rep ++ replaceAll pat rep ((c :: s).drop pat.length)
    else
      c :: replaceAll pat rep s
termination_by s => s.length
decreasing_by
  · simp only [List.length_drop, List.length_cons]
    have hp : 1 ≤ pat.length := by
      cases pat with
      | nil => simp at *
      | cons a l => simp
    omega
  · simp

/-- Python `pat in s` (substring containment), as a Boolean scan. -/
def occursB (pat : Chars) : Chars → Bool
  | [] => decide (pat <+: ([] : Chars))
  | c :: s => decide (pat <+: (c :: s)) || occursB pat s

/-- Substring containment as a proposition: `pat` occurs at some position. -/
def Occurs (pat s : Chars) : Prop := ∃ p, pat <+: s.drop p

/- ## Ticker formatter (`process_story_formatting`, app.py 716-732) -/

/-- The strip-of-existing-emphasis step of `process_story_formatting`:
`story_content.replace('**', '').replace('<u>', '').replace('</u>', '')`. -/
def stripEmphasis (s : Chars) : Chars :=
  replaceAll "</u>".toList [] (replaceAll "<u>".toList [] (replaceAll "**".toList [] s))

/-- Uppercase ASCII letter, the class `[A-Z]` of the ticker regex. -/
def isTickerUpper (c : Char) : Bool := 'A' ≤ c && c ≤ 'Z'

/-- The company-name tail class `[A-Za-z0-9\s&\.\-\']` of the ticker regex. -/
def isCompanyChar (c : Char) : Bool :=
  ('A' ≤ c && c ≤ 'Z') || ('a' ≤ c && c ≤ 'z') || ('0' ≤ c && c ≤ '9') ||
  isPyWs c || c = '&' || c = '.' || c = '-' || c = apos

/-- Attempt to match the regex `([A-Z][A-Za-z0-9\s&\.\-\']+)\s*\(([A-Z]{1,5})\)`
at the head of the string, with Python backtracking semantics.  Because `\s`
is contained in the group-1 class, a successful match takes the maximal
group-1 run followed directly by `(`, an uppercase run of length 1-5, and `)`.
Returns (raw group 1, ticker, remainder after the match). -/
def tryTicker : Chars → Option (Chars × Chars × Chars)
  | [] => none
  | c :: s =>
    if isTickerUpper c then
      let run := s.takeWhile isCompanyChar
      if run = [] then none
      else
        match s.drop run.length with
        | '(' :: afterParen =>
          let tick := afterParen.takeWhile isTickerUpper
          if 1 ≤ tick.length ∧ tick.length ≤ 5 then
            match afterParen.drop tick.length with
            | ')' :: rest => some (c :: run, tick, rest)
            | _ => none
          else none
        | _ => none
    else none

theorem takeWhile_len_le {α : Type} (p : α → Bool) (l : List α) : (l.takeWhile p).length ≤ l.length := by
  induction l with
  | nil => simp
  | cons c s ih =>
    simp only [List.takeWhile]
    cases p c <;> simp <;> omega

theorem dropWhile_len_le {α : Type} (p : α → Bool) (l : List α) : (l.dropWhile p).length ≤ l.length := by
  induction l with
  | nil => simp
  | cons c s ih =>
    simp only [List.dropWhile]
    cases p c <;> simp <;> omega

theorem tryTicker_shrink (l g1 tick rest : Chars)
    (h : tryTicker l = some (g1, tick, rest)) : rest.length < l.length := by
  match l with
  | [] => simp [tryTicker] at h
  | c :: s =>
    simp only [tryTicker] at h
    split at h
    · split at h
      · exact absurd h (by simp)
      · rename_i hrun
        split at h
        · rename_i afterParen hdrop
          split at h
          · rename_i htick
            split at h
            · rename_i rest' hdrop2
              simp only [Option.some.injEq, Prod.mk.injEq] at h
              obtain ⟨hg, ht, hr⟩ := h
              have e1 := congrArg List.length hdrop
              simp only [List.length_drop, List.length_cons] at e1
              have e2 := congrArg List.length hdrop2
              simp only [List.length_drop, List.length_cons] at e2
              have e3 : (s.takeWhile isCompanyChar).length ≤ s.length :=
                takeWhile_len_le _ _
              have e4 : (afterParen.takeWhile isTickerUpper).length ≤ afterParen.length :=
                takeWhile_len_le _ _
              have e5 : 1 ≤ (s.takeWhile isCompanyChar).length := by
                rename_i hrun _ _
                cases hq : s.takeWhile isCompanyChar with
                | nil => exact absurd hq hrun
                | cons a t => simp
              subst hr
              simp only [List.length_cons]
              omega
            · exact absurd h (by simp)
          · exact absurd h (by simp)
        · exact absurd h (by simp)
    · exact absurd h (by simp)

/-- The fixed double-emphasis wrapper
`<u><strong><u>{company} ({ticker})</u></strong></u>` of `replace_ticker`. -/
def tickerWrap (company tick : Chars) : Chars :=
  "<u><strong><u>".toList ++ company ++ " (".toList ++ tick ++ ")</u></strong></u>".toList

/-- The `re.sub` pass of `process_story_formatting`: scan left to right,
replacing every regex match by the wrapper (company stripped as in
`replace_ticker`). -/
def subTickers : Chars → Chars
  | [] => []
  | c :: s =>
    match h : tryTicker (c :: s) with
    | some (g1, tick, rest) => tickerWrap (pstrip g1) tick ++ subTickers rest
    | none => c :: subTickers s
termination_by s => s.length
decreasing_by
  · exact tryTicker_shrink _ _ _ _ h
  · simp

/-- Embedding of `process_story_formatting` (app.py 716-732): strip existing
emphasis markers, then rewrap every ticker-pattern match. -/
def process_story_formatting (story : Chars) : Chars :=
  subTickers (stripEmphasis story)

/-- Boolean scan: does some suffix of the string start a ticker match? -/
def hasTicker : Chars → Bool
  | [] => false
  | c :: s => (tryTicker (c :: s)).isSome || hasTicker s

/- ## Content parser (`parse_content_to_html`, app.py 734-856) -/

/-- Section header line `INTRO_PARAGRAPH:`. -/
def hdrIntro : Chars := "INTRO_PARAGRAPH:".toList

/-- Section header line `MARKET_GRID:`. -/
def hdrGrid : Chars := "MARKET_GRID:".toList

/-- Section header line `CORE_STORIES:`. -/
def hdrCore : Chars := "CORE_STORIES:".toList

/-- Section header line `HORIZON_SCAN_STORIES:`. -/
def hdrHorizon : Chars := "HORIZON_SCAN_STORIES:".toList

/-- Section header line `GAME_CHOICE:`. -/
def hdrGame : Chars := "GAME_CHOICE:".toList

/-- The current-section pointer of the parser state machine. -/
inductive Sec where
  | intro | grid | core | horizon | game
deriving DecidableEq

/-- The four generated section buffers of `sections` (DATE and TRIVIA_SECTION
are not derived from the parsed content). -/
structure Sections where
  introPar : Chars
  marketGrid : Chars
  coreStories : Chars
  horizonStories : Chars

/-- Mutable state of the parsing loop: current section, market-grid cell
buffer, and the accumulated section strings. -/
structure PState where
  cur : Option Sec
  buffer : List Chars
  sects : Sections

/-- Guard on the head line of an intro run (app.py 785):
`line and not line.startswith('[') and not line.startswith('MARKET_GRID:')`. -/
def introLineOk (line : Chars) : Bool :=
  line ≠ [] && !(['['].isPrefixOf line) && !(hdrGrid.isPrefixOf line)

/-- Continuation condition of the intro inner loop (app.py 788), applied to a
raw (unstripped) following line. -/
def introCont (l : Chars) : Bool := introLineOk (pstrip l)

/-- Guard on the head line of a story run (app.py 816):
`line and not line.startswith('[')`. -/
def storyLineOk (line : Chars) : Bool :=
  line ≠ [] && !(['['].isPrefixOf line)

/-- Continuation condition of the story inner loop (app.py 819), applied to a
raw following line: nonempty, not bracket-prefixed, and not one of the two
exact header strings `HORIZON_SCAN_STORIES:` / `GAME_CHOICE:`. -/
def storyCont (l : Chars) : Bool :=
  let s := pstrip l
  s ≠ [] && !(['['].isPrefixOf s) && s ≠ hdrHorizon && s ≠ hdrGame

/-- Join with single spaces, as the paragraph/story accumulation does. -/
def joinSp (parts : List Chars) : Chars := joinWith [' '] parts

/-- Opening fragment of an intro paragraph block (app.py 793). -/
def introOpen : Chars := "        <p>".toList

/-- Closing fragment of an intro paragraph block (app.py 793). -/
def introClose : Chars := "</p>\n".toList

/-- One market-grid cell (app.py 800-807), including the change-class rule:
positive iff the change starts with `+`, negative iff it starts with `-`. -/
def cellHtml (label value change : Chars) : Chars :=
  let changeClass : Chars :=
    if ['+'].isPrefixOf change then "change-positive".toList
    else if ['-'].isPrefixOf change then "change-negative".toList
    else []
  "\n            <td>\n                <span class=\"market-label\">".toList ++ label ++
  "</span>\n                <span class=\"market-value\">".toList ++ value ++
  "</span>\n                <span class=\"market-change ".toList ++ changeClass ++
  "\">".toList ++ change ++ "</span>\n            </td>".toList

/-- The 3-row market table assembled from 9 buffered cells (app.py 810). -/
def tableHtml (buf : List Chars) : Chars :=
  "<tr>".toList ++ (buf.take 3).flatten ++
  "</tr>\n            <tr>".toList ++ ((buf.drop 3).take 3).flatten ++
  "</tr>\n            <tr>".toList ++ ((buf.drop 6).take 3).flatten ++
  "</tr>".toList

/-- One story container block (app.py 825). -/
def storyHtml (formatted : Chars) : Chars :=
  "<div class=\"story\">\n            <p>".toList ++ formatted ++
  "</p>\n        </div>".toList

/-- Separator prepended before each story container (app.py 828/830). -/
def storySep : Chars := "\n        ".toList

/-- The line-processing loop of `parse_content_to_html` (app.py 749-834).
Header lines switch the current section (resetting the cell buffer, except
for `GAME_CHOICE:`); intro and story sections consume a maximal run of
continuation lines in one step (the inner `while` loops); the market-grid
section buffers pipe-delimited cells and renders the table exactly when the
buffer reaches 9 cells, after which the current section is cleared. -/
def parseLoop : List Chars → PState → Sections
  | [], st => st.sects
  | l :: ls, st =>
    let line := pstrip l
    if line = hdrIntro then
      parseLoop ls { st with cur := some Sec.intro, buffer := [] }
    else if line = hdrGrid then
      parseLoop ls { st with cur := some Sec.grid, buffer := [] }
    else if line = hdrCore then
      parseLoop ls { st with cur := some Sec.core, buffer := [] }
    else if line = hdrHorizon then
      parseLoop ls { st with cur := some Sec.horizon, buffer := [] }
    else if line = hdrGame then
      parseLoop ls { st with cur := some Sec.game }
    else
      match st.cur with
      | some Sec.intro =>
        if introLineOk line then
          let text := joinSp (line :: (ls.takeWhile introCont).map pstrip)
          let st' :=
            if text ≠ [] then
              { st with sects :=
                { st.sects with introPar := st.sects.introPar ++ introOpen ++ text ++ introClose } }
            else st
          parseLoop (ls.dropWhile introCont) st'
        else
          parseLoop ls st
      | some Sec.grid =>
        let st1 :=
          if '|' ∈ line then
            let parts := pySplit '|' line
            if 3 ≤ parts.length then
              { st with buffer := st.buffer ++
                  [cellHtml (pstrip (parts.getD 0 [])) (pstrip (parts.getD 1 []))
                    (pstrip (parts.getD 2 []))] }
            else st
          else st
        let st2 :=
          if st1.buffer.length = 9 then
            { st1 with sects := { st1.sects with marketGrid := tableHtml st1.buffer },
                       buffer := [], cur := none }
          else st1
        parseLoop ls st2
      | some Sec.core =>
        if storyLineOk line then
          let text := joinSp (line :: (ls.takeWhile storyCont).map pstrip)
          let newCore := st.sects.coreStories ++ storySep ++ storyHtml (process_story_formatting text)
          let st' :=
            if text ≠ [] ∧ 50 < text.length then
              { st with sects := { st.sects with coreStories := newCore } }
            else st
          parseLoop (ls.dropWhile storyCont) st'
        else
          parseLoop ls st
      | some Sec.horizon =>
        if storyLineOk line then
          let text := joinSp (line :: (ls.takeWhile storyCont).map pstrip)
          let newHor := st.sects.horizonStories ++ storySep ++ storyHtml (process_story_formatting text)
          let st' :=
            if text ≠ [] ∧ 50 < text.length then
              { st with sects := { st.sects with horizonStories := newHor } }
            else st
          parseLoop (ls.dropWhile storyCont) st'
        else
          parseLoop ls st
      | _ => parseLoop ls st
termination_by ls _ => ls.length
decreasing_by
  all_goals simp only [List.length_cons]
  all_goals first
    | omega
    | (have hd2 := dropWhile_len_le introCont ls; omega)
    | (have hd2 := dropWhile_len_le storyCont ls; omega)

/-- The initial parser state. -/
def initPState : PState := ⟨none, [], ⟨[], [], [], []⟩⟩

/-- The four generated sections extracted from a content string:
split on newlines and run the parsing loop. -/
def parseSections (content : Chars) : Sections :=
  parseLoop (pySplit '\n' content) initPState

/- ## HTML shell template (app.py 63-252) and template fill (851-854) -/

/-- Placeholder token replaced by the current date. -/
def tokDATE : Chars := "\x7bDATE\x7d".toList

/-- Placeholder token replaced by the intro section. -/
def tokINTRO : Chars := "\x7bINTRO_PARAGRAPH\x7d".toList

/-- Placeholder token replaced by the market-grid section. -/
def tokGRID : Chars := "\x7bMARKET_GRID\x7d".toList

/-- Placeholder token replaced by the core-stories section. -/
def tokCORE : Chars := "\x7bCORE_STORIES\x7d".toList

/-- Placeholder token replaced by the horizon-scan section. -/
def tokHORIZON : Chars := "\x7bHORIZON_SCAN_STORIES\x7d".toList

/-- Placeholder token replaced by the static trivia block. -/
def tokTRIVIA : Chars := "\x7bTRIVIA_SECTION\x7d".toList

/-- The seven literal pieces of HTML_TEMPLATE (app.py lines 212-252, with
INJECTED_STYLE inlined by the f-string) around the six placeholder tokens,
in document order, each split into sub-500-character chunks. -/
def tmplSeg0c0 : List Char := "<!DOCTYPE html>\n<html lang=\"en\">\n<head>\n    <meta charset=\"UTF-8\">\n    <meta name=\"viewport\" content=\"width=device-width, initial-scale=1.0\">\n    <title>Alphaminr</title>\n    <style>\n        \n        body \x7b\n            font-family: Arial, Helvetica, sans-serif;\n            line-height: 1.5;\n            color: #444;\n            background-color: #ffffff;\n            margin: 0;\n            padding: 20px;\n        \x7d\n        .container \x7b\n            m".toList
def tmplSeg0c1 : List Char := "ax-width: 600px;\n            margin: 0 auto;\n            background: #ffffff;\n            padding: 30px;\n        \x7d\n        h1 \x7b\n            font-size: 2.2em;\n            text-align: center;\n            color: #2c3e50;\n            border-bottom: 3px solid #3498db;\n            padding-bottom: 15px;\n            margin-bottom: 25px;\n        \x7d\n        h2 \x7b\n            font-size: 1.4em;\n            margin-top: 35px;\n            color: #34495e;\n        ".toList
def tmplSeg0c2 : List Char := "    border-bottom: 2px solid #ecf0f1;\n            padding-bottom: 8px;\n            margin-bottom: 20px;\n        \x7d\n        h3 \x7b\n            font-size: 1.2em;\n            margin-top: 30px;\n            color: #7f8c8d;\n            font-weight: 600;\n            margin-bottom: 15px;\n        \x7d\n        .market-table \x7b\n            width: 100%;\n            border-collapse: collapse;\n            margin-bottom: 25px;\n            background-color: #f8f9fa;\n  ".toList
def tmplSeg0c3 : List Char := "      \x7d\n        .market-table td \x7b\n            border: 1px solid #dee2e6;\n            padding: 15px;\n            text-align: center;\n            width: 33.33%;\n            vertical-align: middle;\n        \x7d\n        .market-label \x7b\n            font-size: 0.85em;\n            font-weight: bold;\n            color: #6c757d;\n            display: block;\n            margin-bottom: 5px;\n        \x7d\n        .market-value \x7b\n            font-size: 1.1em;\n      ".toList
def tmplSeg0c4 : List Char := "      font-weight: bold;\n            color: #2c3e50;\n            display: block;\n            margin-bottom: 5px;\n        \x7d\n        .market-change \x7b\n            font-size: 0.9em;\n            font-weight: bold;\n        \x7d\n        .change-positive \x7b\n            color: #27ae60;\n        \x7d\n        .change-negative \x7b\n            color: #e74c3c;\n        \x7d\n        .story \x7b\n            margin-bottom: 25px;\n            padding-bottom: 20px;\n            borde".toList
def tmplSeg0c5 : List Char := "r-bottom: 1px solid #ecf0f1;\n        \x7d\n        .story:last-of-type \x7b\n            border-bottom: none;\n            margin-bottom: 0;\n            padding-bottom: 0;\n        \x7d\n        p \x7b\n            margin: 0 0 15px 0;\n            color: #444;\n            font-size: 1em;\n            line-height: 1.6;\n        \x7d\n        em \x7b\n            color: #7f8c8d;\n        \x7d\n        strong \x7b\n            color: #2c3e50;\n        \x7d\n        u \x7b\n            text-decor".toList
def tmplSeg0c6 : List Char := "ation: underline;\n            text-decoration-color: #3498db;\n        \x7d\n        .disclaimer \x7b\n            font-size: 0.8em;\n            color: #7f8c8d;\n            margin-top: 30px;\n            border-top: 1px solid #ecf0f1;\n            padding-top: 20px;\n        \x7d\n        .trivia-container \x7b\n            background-color: #f8f9fa;\n            border: 2px solid #3498db;\n            border-radius: 8px;\n            padding: 20px;\n            margin:".toList
def tmplSeg0c7 : List Char := " 20px 0;\n            text-align: center;\n        \x7d\n        .trivia-question \x7b\n            font-size: 1.1em;\n            font-weight: bold;\n            margin-bottom: 15px;\n            color: #2c3e50;\n        \x7d\n        .trivia-options \x7b\n            margin: 15px 0;\n        \x7d\n        .trivia-option \x7b\n            display: block;\n            background-color: #ffffff;\n            border: 1px solid #bdc3c7;\n            padding: 10px 15px;\n            m".toList
def tmplSeg0c8 : List Char := "argin: 8px 0;\n            border-radius: 5px;\n            color: #2c3e50;\n            text-decoration: none;\n            font-weight: bold;\n        \x7d\n        .trivia-answer \x7b\n            font-size: 0.9em;\n            color: #7f8c8d;\n            margin-top: 15px;\n            padding-top: 15px;\n            border-top: 1px solid #ecf0f1;\n        \x7d\n        .trivia-correct \x7b\n            color: #27ae60;\n            font-weight: bold;\n        \x7d\n\n    </s".toList
def tmplSeg0c9 : List Char := "tyle>\n</head>\n<body>\n    <div class=\"container\">\n        <h1>Alphaminr</h1>\n        <p style=\"text-align: center; font-size: 0.9em; color: #6c757d; margin-bottom: 20px;\">Digging Deeper Than the Headlines.</p>\n        \n        <div style=\"text-align: right; font-size: 0.8em; color: #6c757d; margin-bottom: 20px;\">".toList
def tmplSeg0 : List Char := tmplSeg0c0 ++ tmplSeg0c1 ++ tmplSeg0c2 ++ tmplSeg0c3 ++ tmplSeg0c4 ++ tmplSeg0c5 ++ tmplSeg0c6 ++ tmplSeg0c7 ++ tmplSeg0c8 ++ tmplSeg0c9

def tmplSeg1c0 : List Char := "</div>\n        \n        ".toList
def tmplSeg1 : List Char := tmplSeg1c0

def tmplSeg2c0 : List Char := "\n\n        <h2>Market Snapshot</h2>\n        <table class=\"market-table\">\n            ".toList
def tmplSeg2 : List Char := tmplSeg2c0

def tmplSeg3c0 : List Char := "\n        </table>\n\n        <h2>Policy Impact Analysis</h2>\n        ".toList
def tmplSeg3 : List Char := tmplSeg3c0

def tmplSeg4c0 : List Char := "\n        \n        <h3 style=\"font-size: 1.2em; margin-top: 35px; margin-bottom: 20px; color: #495057; font-weight: 600;\">On the Horizon: Regulatory Risks & Opportunities</h3>\n        ".toList
def tmplSeg4 : List Char := tmplSeg4c0

def tmplSeg5c0 : List Char := "\n        \n        <h2>The Brain Teaser</h2>\n        <div class=\"trivia-container\">\n            ".toList
def tmplSeg5 : List Char := tmplSeg5c0

def tmplSeg6c0 : List Char := "\n        </div>\n\n        <h2>Disclaimer</h2>\n        <p class=\"disclaimer\">The content provided in this newsletter, \"Alphaminr,\" is for informational and educational purposes only. It is not, and should not be construed as, financial, investment, legal, or tax advice. The information contained herein is based on sources believed to be reliable, but its accuracy and completeness cannot be guaranteed. Alphaminr, its authors, and its affiliates are ".toList
def tmplSeg6c1 : List Char := "not registered investment advisors and do not provide personalized investment advice. All investment strategies and investments involve risk of loss. Past performance is not indicative of future results. You should not act or refrain from acting on the basis of any content included in this newsletter without seeking financial or other professional advice. Any stock tickers or companies mentioned are for illustrative purposes only and do not const".toList
def tmplSeg6c2 : List Char := "itute a recommendation to buy, sell, or hold any security. You are solely responsible for your own investment decisions.</p>\n    </div>\n</body>\n</html>\n".toList
def tmplSeg6 : List Char := tmplSeg6c0 ++ tmplSeg6c1 ++ tmplSeg6c2

def triviaC0 : List Char := "\n        <div class=\"trivia-question\">Which sector is most sensitive to regulatory changes?</div>\n        <div class=\"trivia-options\">\n            <div class=\"trivia-option\">A) Technology</div>\n            <div class=\"trivia-option\">B) Healthcare</div>\n            <div class=\"trivia-option\">C) Financial Services</div>\n            <div class=\"trivia-option\">D) Energy</div>\n        </div>\n        <div class=\"trivia-answer\">\n            <strong clas".toList
def triviaC1 : List Char := "s=\"trivia-correct\">Answer:</strong> C) Financial Services <br>\n            <em>Financial services companies are highly regulated and sensitive to policy changes affecting lending, trading, and compliance requirements.</em>\n        </div>\n    ".toList
/-- The static trivia block assigned to sections[TRIVIA_SECTION] (app.py lines 837-849). -/
def triviaSection : List Char := triviaC0 ++ triviaC1

/-- The full HTML shell `HTML_TEMPLATE`: the seven literal segments with the
six placeholder tokens between them, in document order (which coincides with
the replacement order of the `sections` dict). -/
def HTML_TEMPLATE : Chars :=
  tmplSeg0 ++ tokDATE ++ tmplSeg1 ++ tokINTRO ++ tmplSeg2 ++ tokGRID ++ tmplSeg3 ++
  tokCORE ++ tmplSeg4 ++ tokHORIZON ++ tmplSeg5 ++ tokTRIVIA ++ tmplSeg6

/-- The template-fill loop (app.py 852-854): `html.replace('{KEY}', value)`
for each key in the insertion order of the `sections` dict:
DATE, INTRO_PARAGRAPH, MARKET_GRID, CORE_STORIES, HORIZON_SCAN_STORIES,
TRIVIA_SECTION. -/
def fillTemplate (today : Chars) (s : Sections) : Chars :=
  replaceAll tokTRIVIA triviaSection
    (replaceAll tokHORIZON s.horizonStories
      (replaceAll tokCORE s.coreStories
        (replaceAll tokGRID s.marketGrid
          (replaceAll tokINTRO s.introPar
            (replaceAll tokDATE today HTML_TEMPLATE)))))

/-- Embedding of `parse_content_to_html` (app.py 734-856).  The input is the
(possibly absent) generator output; `None` and the empty string are falsy in
Python, so `if not content: return None` maps both to `none`.  Otherwise the
parsed sections are substituted into the shell.  The current date
(`datetime.now().strftime(...)`) is passed as the `today` parameter. -/
def parse_content_to_html (today : Chars) (content : Option Chars) : Option Chars :=
  match content with
  | none => none
  | some c => if c = [] then none else some (fillTemplate today (parseSections c))

/- ## Market data collector (`fetch_market_data`, app.py 527-622) -/

/-- One search hit: the `title` and `description` fields used by the
collector (`result.get("title", "")`, `result.get("description", "")`). -/
structure SearchResult where
  title : Chars
  description : Chars

/-- Python `str.lower`, restricted to the ASCII case mapping. -/
def lowerStr (s : Chars) : Chars := s.map Char.toLower

/-- The "unavailable" sentinel value. -/
def naVal : Chars := "N/A".toList

/-- The suffix distinguishing a change entry from a value entry. -/
def chgSuffix : Chars := "_change".toList

/-- Lookup in an insertion-ordered association list (Python dict access). -/
def alookup (k : Chars) : List (Chars × Chars) → Option Chars
  | [] => none
  | (a, b) :: d => if a = k then some b else alookup k d

/-- Python dict assignment `d[k] = v`: overwrite in place if present,
otherwise append. -/
def aset (d : List (Chars × Chars)) (k v : Chars) : List (Chars × Chars) :=
  if (alookup k d).isSome then
    d.map (fun p => if p.1 = k then (p.1, v) else p)
  else d ++ [(k, v)]

/-- The `if market not in data:` insertion of the N/A value and change pair,
shared by every keyword branch and by the fill-missing loop. -/
def markNA (d : List (Chars × Chars)) (k : Chars) : List (Chars × Chars) :=
  if alookup k d = none then aset (aset d k naVal) (k ++ chgSuffix) naVal else d

/-- Processing of one search result inside `fetch_market_data` (app.py
549-607): lower-case title and description, then test the nine fixed keyword
groups in source order; a hit inserts the sentinel pair for that instrument
if it is not yet present. -/
def scanResult (d : List (Chars × Chars)) (r : SearchResult) : List (Chars × Chars) :=
  let text := lowerStr r.title ++ [' '] ++ lowerStr r.description
  let has := fun (p : String) => occursB p.toList text
  let d := if has "s&p 500" || has "spx" then markNA d "S&P 500".toList else d
  let d := if has "nasdaq" && has "100" then markNA d "NASDAQ 100".toList else d
  let d := if has "dow jones" || has "dow" then markNA d "Dow Jones".toList else d
  let d := if has "bitcoin" || has "btc" then markNA d "Bitcoin (BTC)".toList else d
  let d := if has "ethereum" || has "eth" then markNA d "Ethereum (ETH)".toList else d
  let d := if has "gold" then markNA d "Gold".toList else d
  let d := if has "oil" || has "crude" || has "wti" then markNA d "Crude Oil (WTI)".toList else d
  let d := if has "vix" || has "volatility" then markNA d "VIX".toList else d
  let d := if has "treasury" || has "10-year" || has "bond" then markNA d "US 10-Yr Treasury".toList else d
  d

/-- The nine fixed instrument labels of `required_markets` (app.py 610-613). -/
def requiredMarkets : List Chars :=
  ["S&P 500".toList, "NASDAQ 100".toList, "Dow Jones".toList, "Bitcoin (BTC)".toList,
   "Crude Oil (WTI)".toList, "Gold".toList, "US 10-Yr Treasury".toList,
   "Ethereum (ETH)".toList, "VIX".toList]

/-- Embedding of `fetch_market_data` (app.py 527-622).  The two collaborator
outcomes (indices query, commodities query) are passed as result lists; a
search failure degrades to `[]` at the `brave_search_market_data` boundary
(app.py 341-361), which is the empty list here.  After scanning, every
missing required market is filled with the N/A sentinel pair. -/
def fetch_market_data (indicesResults commoditiesResults : List SearchResult) :
    List (Chars × Chars) :=
  let allResults := indicesResults ++ commoditiesResults
  let d := allResults.foldl scanResult []
  requiredMarkets.foldl (fun d m => markNA d m) d

/- ## Generation endpoints (api_generate, app.py 971-1025; cron_generate, cron_endpoint.py) -/

/-- The response envelope of `POST /api/generate` together with the database
rows written during the request (`save_newsletter_to_db` inserts
`(id, html_content)`; the other columns are constants). -/
structure ApiOutcome where
  success : Bool
  html : Option Chars
  newsletterId : Option Chars
  error : Option Chars
  dbWrites : List (Chars × Chars)

/-- Error message for a generation failure (app.py 992). -/
def errNoContent : Chars := "Failed to generate content".toList

/-- Error message for a parse failure (app.py 999). -/
def errNoParse : Chars := "Failed to parse content into HTML".toList

/-- Embedding of `api_generate` (app.py 971-1025).  The generator outcome
(`generate_newsletter_content()`, `None` on failure) and the fresh UUID are
parameters.  Falsy content short-circuits to a failure envelope; a parse
failure short-circuits to a distinct failure envelope; otherwise the rendered
document is stored under the fresh id and returned in the success envelope. -/
def api_generate (today newsletterId : Chars) (content : Option Chars) : ApiOutcome :=
  match content with
  | none => ⟨false, none, none, some errNoContent, []⟩
  | some c =>
    if c = [] then ⟨false, none, none, some errNoContent, []⟩
    else
      match parse_content_to_html today (some c) with
      | none => ⟨false, none, none, some errNoParse, []⟩
      | some h => ⟨true, some h, some newsletterId, none, [(newsletterId, h)]⟩

/-- The response of `POST /api/cron/generate` (cron_endpoint.py): either the
401 unauthorized signal, a failure envelope, or a success envelope carrying
the id and the document that was stored for it. -/
inductive CronOutcome where
  | unauthorized
  | failure (err : Chars)
  | success (newsletterId : Chars) (stored : Chars)
deriving DecidableEq

/-- The post-authorization body of `cron_generate` (cron_endpoint.py 26-55):
`html_output = generate_newsletter_content()`; falsy output is a failure;
otherwise the output is stored under a fresh id — note that the generator
output is stored directly, without a `parse_content_to_html` stage. -/
def cronRun (newsletterId : Chars) (content : Option Chars) : CronOutcome :=
  match content with
  | none => CronOutcome.failure errNoContent
  | some c => if c = [] then CronOutcome.failure errNoContent
              else CronOutcome.success newsletterId c

/-- Embedding of `cron_generate` (cron_endpoint.py 1-59).  `cronSecret` is
the `CRON_SECRET` environment variable (`none` when unset; Python treats the
empty string as falsy too), `provided` is the `X-Cron-Secret` request header
(`none` when absent).  An unset/empty secret logs a warning and lets every
request through; a configured secret rejects any non-matching header with
the 401 signal before generation runs. -/
def cron_generate (cronSecret provided : Option Chars) (newsletterId : Chars)
    (content : Option Chars) : CronOutcome :=
  if cronSecret = none ∨ cronSecret = some [] then cronRun newsletterId content
  else if provided = cronSecret then cronRun newsletterId content
  else CronOutcome.unauthorized

/- ## Infrastructure lemmas on substrings and `replaceAll` -/

theorem occurs_cons (pat : Chars) (c : Char) (s : Chars) :
    Occurs pat (c :: s) ↔ pat <+: (c :: s) ∨ Occurs pat s := by
  constructor
  · rintro ⟨p, hp⟩
    cases p with
    | zero => exact Or.inl hp
    | succ q => exact Or.inr ⟨q, hp⟩
  · rintro (h | ⟨p, hp⟩)
    · exact ⟨0, h⟩
    · exact ⟨p + 1, hp⟩

theorem occurs_nil (pat : Chars) : Occurs pat [] ↔ pat = [] := by
  constructor
  · rintro ⟨p, hp⟩
    rw [List.drop_nil] at hp
    exact List.prefix_nil.mp hp
  · rintro rfl
    exact ⟨0, List.nil_prefix⟩

theorem occursB_iff (pat s : Chars) : occursB pat s = true ↔ Occurs pat s := by
  induction s with
  | nil =>
    simp only [occursB, decide_eq_true_eq, occurs_nil]
    exact ⟨fun h => List.prefix_nil.mp h, fun h => h ▸ List.nil_prefix⟩
  | cons c s ih =>
    simp only [occursB, Bool.or_eq_true, decide_eq_true_eq, ih, occurs_cons]

theorem occurs_append_right (pat a s : Chars) (h : Occurs pat s) : Occurs pat (a ++ s) := by
  induction a with
  | nil => simpa using h
  | cons c a ih => exact (occurs_cons _ _ _).mpr (Or.inr ih)

theorem prefix_of_append_le (t x y : Chars) (h : t <+: x ++ y) (hl : t.length ≤ x.length) :
    t <+: x := by
  rw [List.prefix_iff_eq_take] at h ⊢
  rw [List.take_append_eq_append_take] at h
  have h2 : t.length - x.length = 0 := by omega
  rw [h2] at h
  simpa using h

theorem append_prefix_of_le (t x y : Chars) (h : t <+: x ++ y) (hl : x.length ≤ t.length) :
    x <+: t := by
  rw [List.prefix_iff_eq_take] at h
  rw [List.take_append_eq_append_take, List.take_all_of_le hl] at h
  exact h ▸ List.prefix_append x _

/-- Safety of a block with respect to a pattern: no suffix of the block is a
prefix of the pattern, nor starts an occurrence of it.  A concatenation of
pattern-safe blocks contains no occurrence of the pattern, no matter how they
are interleaved. -/
def SafePre (pat a : Chars) : Prop :=
  ∀ p, p < a.length → ¬ pat <+: a.drop p ∧ ¬ a.drop p <+: pat

theorem safePre_nil (pat : Chars) : SafePre pat [] := by
  intro p hp
  simp at hp

theorem safePre_tail {pat : Chars} {c : Char} {a : Chars} (h : SafePre pat (c :: a)) :
    SafePre pat a := by
  intro p hp
  have := h (p + 1) (by simpa using Nat.succ_lt_succ hp)
  simpa using this

theorem safePre_append {pat a b : Chars} (ha : SafePre pat a) (hb : SafePre pat b) :
    SafePre pat (a ++ b) := by
  intro p hp
  rcases Nat.lt_or_ge p a.length with hpa | hpa
  · rw [List.drop_append_eq_append_drop, Nat.sub_eq_zero_of_le (Nat.le_of_lt hpa), List.drop_zero]
    constructor
    · intro hpre
      rcases Nat.le_total pat.length (a.drop p).length with hl | hl
      · exact (ha p hpa).1 (prefix_of_append_le _ _ _ hpre hl)
      · exact (ha p hpa).2 (append_prefix_of_le _ _ _ hpre hl)
    · intro hpre
      have h1 : a.drop p <+: a.drop p ++ b := List.prefix_append _ _
      exact (ha p hpa).2 (List.IsPrefix.trans h1 hpre)
  · rw [List.drop_append_eq_append_drop, List.drop_eq_nil_of_le hpa, List.nil_append]
    have hpb : p - a.length < b.length := by
      have := List.length_append a b ▸ hp
      omega
    exact hb (p - a.length) hpb

theorem safePre_not_occurs {pat a : Chars} (hne : pat ≠ []) (h : SafePre pat a) :
    ¬ Occurs pat a := by
  rintro ⟨p, hp⟩
  rcases Nat.lt_or_ge p a.length with hpa | hpa
  · exact (h p hpa).1 hp
  · rw [List.drop_eq_nil_of_le hpa] at hp
    exact hne (List.prefix_nil.mp hp)

theorem safePre_of_head_not_mem {h0 : Char} {t a : Chars} (hm : h0 ∉ a) :
    SafePre (h0 :: t) a := by
  intro p hp
  have hd : a.drop p ≠ [] := by
    intro hnil
    rw [List.drop_eq_nil_iff] at hnil
    omega
  obtain ⟨c, rest, hcr⟩ := List.exists_cons_of_ne_nil hd
  have hc : c ∈ a := by
    have : c ∈ a.drop p := hcr ▸ List.mem_cons_self c rest
    exact List.drop_subset _ _ this
  constructor
  · intro hpre
    rw [hcr] at hpre
    rcases List.cons_prefix_cons.mp hpre with ⟨rfl, -⟩
    exact hm hc
  · intro hpre
    rw [hcr] at hpre
    rcases List.cons_prefix_cons.mp hpre with ⟨rfl, -⟩
    exact hm hc

theorem replaceAll_nil (pat rep : Chars) : replaceAll pat rep [] = [] := by
  simp [replaceAll]

theorem replaceAll_not_occurs {pat : Chars} (rep : Chars) {s : Chars}
    (h : ¬ Occurs pat s) : replaceAll pat rep s = s := by
  induction s with
  | nil => exact replaceAll_nil _ _
  | cons c s ih =>
    rw [replaceAll]
    rw [if_neg]
    · rw [ih (fun ho => h ((occurs_cons _ _ _).mpr (Or.inr ho)))]
    · rintro ⟨-, hpre⟩
      exact h ⟨0, hpre⟩

theorem replaceAll_append_safe {pat a : Chars} (rep : Chars) (s : Chars)
    (ha : SafePre pat a) : replaceAll pat rep (a ++ s) = a ++ replaceAll pat rep s := by
  induction a with
  | nil => simp
  | cons c a ih =>
    rw [List.cons_append, replaceAll, if_neg]
    · rw [ih (safePre_tail ha)]
      simp
    · rintro ⟨hne, hpre⟩
      have h0 := ha 0 (by simp)
      simp only [List.drop_zero] at h0
      rw [show c :: (a ++ s) = (c :: a) ++ s from rfl] at hpre
      rcases Nat.le_total pat.length (c :: a).length with hl | hl
      · exact h0.1 (prefix_of_append_le _ _ _ hpre hl)
      · exact h0.2 (append_prefix_of_le _ _ _ hpre hl)

theorem replaceAll_head (pat rep s : Chars) (hne : pat ≠ []) :
    replaceAll pat rep (pat ++ s) = rep ++ replaceAll pat rep s := by
  obtain ⟨c, t, rfl⟩ := List.exists_cons_of_ne_nil hne
  rw [List.cons_append, replaceAll, if_pos]
  · rw [show (c :: (t ++ s)).drop (c :: t).length = s by
      rw [← List.cons_append, List.drop_left]]
  · exact ⟨by simp, by rw [← List.cons_append]; exact List.prefix_append _ _⟩

/-- Decidability of block safety (used only at small concrete instances). -/
instance (pat a : Chars) : Decidable (SafePre pat a) := by
  unfold SafePre
  infer_instance

/-- Linear scan certifying safety against every pattern of the shape
`lbrace :: c2 :: _`: the block must not end with a left brace and must not
contain a left brace followed by `c2`. -/
def braceClean (c2 : Char) : Chars → Bool
  | [] => true
  | [x] => decide (x ≠ lbrace)
  | x :: y :: s => decide (¬ (x = lbrace ∧ y = c2)) && braceClean c2 (y :: s)

theorem braceClean_safePre {c2 : Char} {t : Chars} :
    ∀ {a : Chars}, braceClean c2 a = true → SafePre (lbrace :: c2 :: t) a := by
  intro a
  induction a with
  | nil => exact fun _ => safePre_nil _
  | cons x rest ih =>
    intro h
    cases rest with
    | nil =>
      intro p hp
      simp only [List.length_cons, List.length_nil] at hp
      have hp0 : p = 0 := by omega
      subst hp0
      simp only [List.drop_zero]
      have hx : x ≠ lbrace := by
        simpa [braceClean] using h
      constructor
      · intro hpre
        rcases List.cons_prefix_cons.mp hpre with ⟨-, h2⟩
        have := List.prefix_nil.mp h2
        simp at this
      · intro hpre
        rcases List.cons_prefix_cons.mp hpre with ⟨hxe, -⟩
        exact hx hxe
    | cons y s =>
      have hb : braceClean c2 (y :: s) = true := by
        have := h
        simp only [braceClean, Bool.and_eq_true] at this
        exact this.2
      have hxy : ¬ (x = lbrace ∧ y = c2) := by
        have := h
        simp only [braceClean, Bool.and_eq_true, decide_eq_true_eq] at this
        exact this.1
      intro p hp
      cases p with
      | zero =>
        simp only [List.drop_zero]
        constructor
        · intro hpre
          rcases List.cons_prefix_cons.mp hpre with ⟨hx, h2⟩
          rcases List.cons_prefix_cons.mp h2 with ⟨hy, -⟩
          exact hxy ⟨hx.symm, hy.symm⟩
        · intro hpre
          rcases List.cons_prefix_cons.mp hpre with ⟨hx, h2⟩
          rcases List.cons_prefix_cons.mp h2 with ⟨hy, -⟩
          exact hxy ⟨hx, hy⟩
      | succ q =>
        have hq : q < (y :: s).length := by
          simp only [List.length_cons] at hp ⊢
          omega
        have := ih hb q hq
        simpa using this

/-- The second characters of the six placeholder tokens. -/
def tokenLetters : List Char := ['D', 'I', 'M', 'C', 'H', 'T']

/-- Combined scanner: certifies `braceClean c2` for every token letter at
once — no left brace at the end, none followed by a token letter. -/
def braceOkAll : Chars → Bool
  | [] => true
  | [x] => decide (x ≠ lbrace)
  | x :: y :: s => decide (¬ (x = lbrace ∧ y ∈ tokenLetters)) && braceOkAll (y :: s)

theorem braceOkAll_clean {c2 : Char} (hc : c2 ∈ tokenLetters) :
    ∀ {a : Chars}, braceOkAll a = true → braceClean c2 a = true := by
  intro a
  induction a with
  | nil => intro h; rfl
  | cons x rest ih =>
    intro h
    cases rest with
    | nil => simpa [braceOkAll, braceClean] using h
    | cons y s =>
      simp only [braceOkAll, Bool.and_eq_true, decide_eq_true_eq] at h
      simp only [braceClean, Bool.and_eq_true, decide_eq_true_eq]
      exact ⟨fun ⟨hx, hy⟩ => h.1 ⟨hx, hy ▸ hc⟩, ih h.2⟩

theorem braceOkAll_safePre {c2 : Char} {t a : Chars} (hc : c2 ∈ tokenLetters)
    (h : braceOkAll a = true) : SafePre (lbrace :: c2 :: t) a :=
  braceClean_safePre (braceOkAll_clean hc h)

theorem tmplSeg0c0_ok : braceOkAll tmplSeg0c0 = true := by decide

theorem tmplSeg0c1_ok : braceOkAll tmplSeg0c1 = true := by decide

theorem tmplSeg0c2_ok : braceOkAll tmplSeg0c2 = true := by decide

theorem tmplSeg0c3_ok : braceOkAll tmplSeg0c3 = true := by decide

theorem tmplSeg0c4_ok : braceOkAll tmplSeg0c4 = true := by decide

theorem tmplSeg0c5_ok : braceOkAll tmplSeg0c5 = true := by decide

theorem tmplSeg0c6_ok : braceOkAll tmplSeg0c6 = true := by decide

theorem tmplSeg0c7_ok : braceOkAll tmplSeg0c7 = true := by decide

theorem tmplSeg0c8_ok : braceOkAll tmplSeg0c8 = true := by decide

theorem tmplSeg0c9_ok : braceOkAll tmplSeg0c9 = true := by decide

theorem tmplSeg0_safe {c2 : Char} {t : Chars} (hc : c2 ∈ tokenLetters) :
    SafePre (lbrace :: c2 :: t) tmplSeg0 := by
  unfold tmplSeg0
  exact safePre_append (safePre_append (safePre_append (safePre_append (safePre_append (safePre_append (safePre_append (safePre_append (safePre_append (braceOkAll_safePre hc tmplSeg0c0_ok) (braceOkAll_safePre hc tmplSeg0c1_ok)) (braceOkAll_safePre hc tmplSeg0c2_ok)) (braceOkAll_safePre hc tmplSeg0c3_ok)) (braceOkAll_safePre hc tmplSeg0c4_ok)) (braceOkAll_safePre hc tmplSeg0c5_ok)) (braceOkAll_safePre hc tmplSeg0c6_ok)) (braceOkAll_safePre hc tmplSeg0c7_ok)) (braceOkAll_safePre hc tmplSeg0c8_ok)) (braceOkAll_safePre hc tmplSeg0c9_ok)

theorem tmplSeg1c0_ok : braceOkAll tmplSeg1c0 = true := by decide

theorem tmplSeg1_safe {c2 : Char} {t : Chars} (hc : c2 ∈ tokenLetters) :
    SafePre (lbrace :: c2 :: t) tmplSeg1 := by
  unfold tmplSeg1
  exact braceOkAll_safePre hc tmplSeg1c0_ok

theorem tmplSeg2c0_ok : braceOkAll tmplSeg2c0 = true := by decide

theorem tmplSeg2_safe {c2 : Char} {t : Chars} (hc : c2 ∈ tokenLetters) :
    SafePre (lbrace :: c2 :: t) tmplSeg2 := by
  unfold tmplSeg2
  exact braceOkAll_safePre hc tmplSeg2c0_ok

theorem tmplSeg3c0_ok : braceOkAll tmplSeg3c0 = true := by decide

theorem tmplSeg3_safe {c2 : Char} {t : Chars} (hc : c2 ∈ tokenLetters) :
    SafePre (lbrace :: c2 :: t) tmplSeg3 := by
  unfold tmplSeg3
  exact braceOkAll_safePre hc tmplSeg3c0_ok

theorem tmplSeg4c0_ok : braceOkAll tmplSeg4c0 = true := by decide

theorem tmplSeg4_safe {c2 : Char} {t : Chars} (hc : c2 ∈ tokenLetters) :
    SafePre (lbrace :: c2 :: t) tmplSeg4 := by
  unfold tmplSeg4
  exact braceOkAll_safePre hc tmplSeg4c0_ok

theorem tmplSeg5c0_ok : braceOkAll tmplSeg5c0 = true := by decide

theorem tmplSeg5_safe {c2 : Char} {t : Chars} (hc : c2 ∈ tokenLetters) :
    SafePre (lbrace :: c2 :: t) tmplSeg5 := by
  unfold tmplSeg5
  exact braceOkAll_safePre hc tmplSeg5c0_ok

theorem tmplSeg6c0_ok : braceOkAll tmplSeg6c0 = true := by decide

theorem tmplSeg6c1_ok : braceOkAll tmplSeg6c1 = true := by decide

theorem tmplSeg6c2_ok : braceOkAll tmplSeg6c2 = true := by decide

theorem tmplSeg6_safe {c2 : Char} {t : Chars} (hc : c2 ∈ tokenLetters) :
    SafePre (lbrace :: c2 :: t) tmplSeg6 := by
  unfold tmplSeg6
  exact safePre_append (safePre_append (braceOkAll_safePre hc tmplSeg6c0_ok) (braceOkAll_safePre hc tmplSeg6c1_ok)) (braceOkAll_safePre hc tmplSeg6c2_ok)

theorem triviaC0_ok : braceOkAll triviaC0 = true := by decide

theorem triviaC1_ok : braceOkAll triviaC1 = true := by decide

theorem triviaSection_safe {c2 : Char} {t : Chars} (hc : c2 ∈ tokenLetters) :
    SafePre (lbrace :: c2 :: t) triviaSection := by
  unfold triviaSection
  exact safePre_append (braceOkAll_safePre hc triviaC0_ok) (braceOkAll_safePre hc triviaC1_ok)

theorem tokDATE_shape : tokDATE = lbrace :: 'D' :: "ATE\x7d".toList := by decide

theorem tokINTRO_shape : tokINTRO = lbrace :: 'I' :: "NTRO_PARAGRAPH\x7d".toList := by decide

theorem tokGRID_shape : tokGRID = lbrace :: 'M' :: "ARKET_GRID\x7d".toList := by decide

theorem tokCORE_shape : tokCORE = lbrace :: 'C' :: "ORE_STORIES\x7d".toList := by decide

theorem tokHORIZON_shape : tokHORIZON = lbrace :: 'H' :: "ORIZON_SCAN_STORIES\x7d".toList := by decide

theorem tokTRIVIA_shape : tokTRIVIA = lbrace :: 'T' :: "RIVIA_SECTION\x7d".toList := by decide

theorem safe_DATE_tmplSeg0 : SafePre tokDATE tmplSeg0 := by
  rw [tokDATE_shape]
  exact tmplSeg0_safe (by decide)

theorem safe_DATE_tmplSeg1 : SafePre tokDATE tmplSeg1 := by
  rw [tokDATE_shape]
  exact tmplSeg1_safe (by decide)

theorem safe_DATE_tmplSeg2 : SafePre tokDATE tmplSeg2 := by
  rw [tokDATE_shape]
  exact tmplSeg2_safe (by decide)

theorem safe_DATE_tmplSeg3 : SafePre tokDATE tmplSeg3 := by
  rw [tokDATE_shape]
  exact tmplSeg3_safe (by decide)

theorem safe_DATE_tmplSeg4 : SafePre tokDATE tmplSeg4 := by
  rw [tokDATE_shape]
  exact tmplSeg4_safe (by decide)

theorem safe_DATE_tmplSeg5 : SafePre tokDATE tmplSeg5 := by
  rw [tokDATE_shape]
  exact tmplSeg5_safe (by decide)

theorem safe_DATE_tmplSeg6 : SafePre tokDATE tmplSeg6 := by
  rw [tokDATE_shape]
  exact tmplSeg6_safe (by decide)

theorem safe_DATE_triviaSection : SafePre tokDATE triviaSection := by
  rw [tokDATE_shape]
  exact triviaSection_safe (by decide)

theorem safe_DATE_val {v : Chars} (hv : lbrace ∉ v) : SafePre tokDATE v := by
  rw [tokDATE_shape]
  exact safePre_of_head_not_mem hv

theorem safe_INTRO_tmplSeg0 : SafePre tokINTRO tmplSeg0 := by
  rw [tokINTRO_shape]
  exact tmplSeg0_safe (by decide)

theorem safe_INTRO_tmplSeg1 : SafePre tokINTRO tmplSeg1 := by
  rw [tokINTRO_shape]
  exact tmplSeg1_safe (by decide)

theorem safe_INTRO_tmplSeg2 : SafePre tokINTRO tmplSeg2 := by
  rw [tokINTRO_shape]
  exact tmplSeg2_safe (by decide)

theorem safe_INTRO_tmplSeg3 : SafePre tokINTRO tmplSeg3 := by
  rw [tokINTRO_shape]
  exact tmplSeg3_safe (by decide)

theorem safe_INTRO_tmplSeg4 : SafePre tokINTRO tmplSeg4 := by
  rw [tokINTRO_shape]
  exact tmplSeg4_safe (by decide)

theorem safe_INTRO_tmplSeg5 : SafePre tokINTRO tmplSeg5 := by
  rw [tokINTRO_shape]
  exact tmplSeg5_safe (by decide)

theorem safe_INTRO_tmplSeg6 : SafePre tokINTRO tmplSeg6 := by
  rw [tokINTRO_shape]
  exact tmplSeg6_safe (by decide)

theorem safe_INTRO_triviaSection : SafePre tokINTRO triviaSection := by
  rw [tokINTRO_shape]
  exact triviaSection_safe (by decide)

theorem safe_INTRO_val {v : Chars} (hv : lbrace ∉ v) : SafePre tokINTRO v := by
  rw [tokINTRO_shape]
  exact safePre_of_head_not_mem hv

theorem safe_GRID_tmplSeg0 : SafePre tokGRID tmplSeg0 := by
  rw [tokGRID_shape]
  exact tmplSeg0_safe (by decide)

theorem safe_GRID_tmplSeg1 : SafePre tokGRID tmplSeg1 := by
  rw [tokGRID_shape]
  exact tmplSeg1_safe (by decide)

theorem safe_GRID_tmplSeg2 : SafePre tokGRID tmplSeg2 := by
  rw [tokGRID_shape]
  exact tmplSeg2_safe (by decide)

theorem safe_GRID_tmplSeg3 : SafePre tokGRID tmplSeg3 := by
  rw [tokGRID_shape]
  exact tmplSeg3_safe (by decide)

theorem safe_GRID_tmplSeg4 : SafePre tokGRID tmplSeg4 := by
  rw [tokGRID_shape]
  exact tmplSeg4_safe (by decide)

theorem safe_GRID_tmplSeg5 : SafePre tokGRID tmplSeg5 := by
  rw [tokGRID_shape]
  exact tmplSeg5_safe (by decide)

theorem safe_GRID_tmplSeg6 : SafePre tokGRID tmplSeg6 := by
  rw [tokGRID_shape]
  exact tmplSeg6_safe (by decide)

theorem safe_GRID_triviaSection : SafePre tokGRID triviaSection := by
  rw [tokGRID_shape]
  exact triviaSection_safe (by decide)

theorem safe_GRID_val {v : Chars} (hv : lbrace ∉ v) : SafePre tokGRID v := by
  rw [tokGRID_shape]
  exact safePre_of_head_not_mem hv

theorem safe_CORE_tmplSeg0 : SafePre tokCORE tmplSeg0 := by
  rw [tokCORE_shape]
  exact tmplSeg0_safe (by decide)

theorem safe_CORE_tmplSeg1 : SafePre tokCORE tmplSeg1 := by
  rw [tokCORE_shape]
  exact tmplSeg1_safe (by decide)

theorem safe_CORE_tmplSeg2 : SafePre tokCORE tmplSeg2 := by
  rw [tokCORE_shape]
  exact tmplSeg2_safe (by decide)

theorem safe_CORE_tmplSeg3 : SafePre tokCORE tmplSeg3 := by
  rw [tokCORE_shape]
  exact tmplSeg3_safe (by decide)

theorem safe_CORE_tmplSeg4 : SafePre tokCORE tmplSeg4 := by
  rw [tokCORE_shape]
  exact tmplSeg4_safe (by decide)

theorem safe_CORE_tmplSeg5 : SafePre tokCORE tmplSeg5 := by
  rw [tokCORE_shape]
  exact tmplSeg5_safe (by decide)

theorem safe_CORE_tmplSeg6 : SafePre tokCORE tmplSeg6 := by
  rw [tokCORE_shape]
  exact tmplSeg6_safe (by decide)

theorem safe_CORE_triviaSection : SafePre tokCORE triviaSection := by
  rw [tokCORE_shape]
  exact triviaSection_safe (by decide)

theorem safe_CORE_val {v : Chars} (hv : lbrace ∉ v) : SafePre tokCORE v := by
  rw [tokCORE_shape]
  exact safePre_of_head_not_mem hv

theorem safe_HORIZON_tmplSeg0 : SafePre tokHORIZON tmplSeg0 := by
  rw [tokHORIZON_shape]
  exact tmplSeg0_safe (by decide)

theorem safe_HORIZON_tmplSeg1 : SafePre tokHORIZON tmplSeg1 := by
  rw [tokHORIZON_shape]
  exact tmplSeg1_safe (by decide)

theorem safe_HORIZON_tmplSeg2 : SafePre tokHORIZON tmplSeg2 := by
  rw [tokHORIZON_shape]
  exact tmplSeg2_safe (by decide)

theorem safe_HORIZON_tmplSeg3 : SafePre tokHORIZON tmplSeg3 := by
  rw [tokHORIZON_shape]
  exact tmplSeg3_safe (by decide)

theorem safe_HORIZON_tmplSeg4 : SafePre tokHORIZON tmplSeg4 := by
  rw [tokHORIZON_shape]
  exact tmplSeg4_safe (by decide)

theorem safe_HORIZON_tmplSeg5 : SafePre tokHORIZON tmplSeg5 := by
  rw [tokHORIZON_shape]
  exact tmplSeg5_safe (by decide)

theorem safe_HORIZON_tmplSeg6 : SafePre tokHORIZON tmplSeg6 := by
  rw [tokHORIZON_shape]
  exact tmplSeg6_safe (by decide)

theorem safe_HORIZON_triviaSection : SafePre tokHORIZON triviaSection := by
  rw [tokHORIZON_shape]
  exact triviaSection_safe (by decide)

theorem safe_HORIZON_val {v : Chars} (hv : lbrace ∉ v) : SafePre tokHORIZON v := by
  rw [tokHORIZON_shape]
  exact safePre_of_head_not_mem hv

theorem safe_TRIVIA_tmplSeg0 : SafePre tokTRIVIA tmplSeg0 := by
  rw [tokTRIVIA_shape]
  exact tmplSeg0_safe (by decide)

theorem safe_TRIVIA_tmplSeg1 : SafePre tokTRIVIA tmplSeg1 := by
  rw [tokTRIVIA_shape]
  exact tmplSeg1_safe (by decide)

theorem safe_TRIVIA_tmplSeg2 : SafePre tokTRIVIA tmplSeg2 := by
  rw [tokTRIVIA_shape]
  exact tmplSeg2_safe (by decide)

theorem safe_TRIVIA_tmplSeg3 : SafePre tokTRIVIA tmplSeg3 := by
  rw [tokTRIVIA_shape]
  exact tmplSeg3_safe (by decide)

theorem safe_TRIVIA_tmplSeg4 : SafePre tokTRIVIA tmplSeg4 := by
  rw [tokTRIVIA_shape]
  exact tmplSeg4_safe (by decide)

theorem safe_TRIVIA_tmplSeg5 : SafePre tokTRIVIA tmplSeg5 := by
  rw [tokTRIVIA_shape]
  exact tmplSeg5_safe (by decide)

theorem safe_TRIVIA_tmplSeg6 : SafePre tokTRIVIA tmplSeg6 := by
  rw [tokTRIVIA_shape]
  exact tmplSeg6_safe (by decide)

theorem safe_TRIVIA_triviaSection : SafePre tokTRIVIA triviaSection := by
  rw [tokTRIVIA_shape]
  exact triviaSection_safe (by decide)

theorem safe_TRIVIA_val {v : Chars} (hv : lbrace ∉ v) : SafePre tokTRIVIA v := by
  rw [tokTRIVIA_shape]
  exact safePre_of_head_not_mem hv

theorem safe_DATE_tokINTRO : SafePre tokDATE tokINTRO := by decide

theorem safe_DATE_tokGRID : SafePre tokDATE tokGRID := by decide

theorem safe_DATE_tokCORE : SafePre tokDATE tokCORE := by decide

theorem safe_DATE_tokHORIZON : SafePre tokDATE tokHORIZON := by decide

theorem safe_DATE_tokTRIVIA : SafePre tokDATE tokTRIVIA := by decide

theorem safe_INTRO_tokDATE : SafePre tokINTRO tokDATE := by decide

theorem safe_INTRO_tokGRID : SafePre tokINTRO tokGRID := by decide

theorem safe_INTRO_tokCORE : SafePre tokINTRO tokCORE := by decide

theorem safe_INTRO_tokHORIZON : SafePre tokINTRO tokHORIZON := by decide

theorem safe_INTRO_tokTRIVIA : SafePre tokINTRO tokTRIVIA := by decide

theorem safe_GRID_tokDATE : SafePre tokGRID tokDATE := by decide

theorem safe_GRID_tokINTRO : SafePre tokGRID tokINTRO := by decide

theorem safe_GRID_tokCORE : SafePre tokGRID tokCORE := by decide

theorem safe_GRID_tokHORIZON : SafePre tokGRID tokHORIZON := by decide

theorem safe_GRID_tokTRIVIA : SafePre tokGRID tokTRIVIA := by decide

theorem safe_CORE_tokDATE : SafePre tokCORE tokDATE := by decide

theorem safe_CORE_tokINTRO : SafePre tokCORE tokINTRO := by decide

theorem safe_CORE_tokGRID : SafePre tokCORE tokGRID := by decide

theorem safe_CORE_tokHORIZON : SafePre tokCORE tokHORIZON := by decide

theorem safe_CORE_tokTRIVIA : SafePre tokCORE tokTRIVIA := by decide

theorem safe_HORIZON_tokDATE : SafePre tokHORIZON tokDATE := by decide

theorem safe_HORIZON_tokINTRO : SafePre tokHORIZON tokINTRO := by decide

theorem safe_HORIZON_tokGRID : SafePre tokHORIZON tokGRID := by decide

theorem safe_HORIZON_tokCORE : SafePre tokHORIZON tokCORE := by decide

theorem safe_HORIZON_tokTRIVIA : SafePre tokHORIZON tokTRIVIA := by decide

theorem safe_TRIVIA_tokDATE : SafePre tokTRIVIA tokDATE := by decide

theorem safe_TRIVIA_tokINTRO : SafePre tokTRIVIA tokINTRO := by decide

theorem safe_TRIVIA_tokGRID : SafePre tokTRIVIA tokGRID := by decide

theorem safe_TRIVIA_tokCORE : SafePre tokTRIVIA tokCORE := by decide

theorem safe_TRIVIA_tokHORIZON : SafePre tokTRIVIA tokHORIZON := by decide

theorem tokDATE_ne : tokDATE ≠ [] := by decide

theorem tokINTRO_ne : tokINTRO ≠ [] := by decide

theorem tokGRID_ne : tokGRID ≠ [] := by decide

theorem tokCORE_ne : tokCORE ≠ [] := by decide

theorem tokHORIZON_ne : tokHORIZON ≠ [] := by decide

theorem tokTRIVIA_ne : tokTRIVIA ≠ [] := by decide

/-- The fully substituted document: the seven template segments with the
date, the four parsed section values, and the static trivia block in the
placeholder positions. -/
def renderedDoc (today vI vG vC vH : Chars) : Chars :=
  tmplSeg0 ++ (today ++ (tmplSeg1 ++ (vI ++ (tmplSeg2 ++ (vG ++ (tmplSeg3 ++ (vC ++ (tmplSeg4 ++ (vH ++ (tmplSeg5 ++ (triviaSection ++ tmplSeg6)))))))))))

/-- General shape of the template fill: when each section value is safe for
every token substituted after it, the six replacement passes produce exactly
the segment/value interleaving of the shell. -/
theorem fillTemplate_shape_gen (today vI vG vC vH : Chars)
    (htodayINTRO : SafePre tokINTRO today)
    (htodayGRID : SafePre tokGRID today)
    (htodayCORE : SafePre tokCORE today)
    (htodayHORIZON : SafePre tokHORIZON today)
    (htodayTRIVIA : SafePre tokTRIVIA today)
    (hvIGRID : SafePre tokGRID vI)
    (hvICORE : SafePre tokCORE vI)
    (hvIHORIZON : SafePre tokHORIZON vI)
    (hvITRIVIA : SafePre tokTRIVIA vI)
    (hvGCORE : SafePre tokCORE vG)
    (hvGHORIZON : SafePre tokHORIZON vG)
    (hvGTRIVIA : SafePre tokTRIVIA vG)
    (hvCHORIZON : SafePre tokHORIZON vC)
    (hvCTRIVIA : SafePre tokTRIVIA vC)
    (hvHTRIVIA : SafePre tokTRIVIA vH) :
    fillTemplate today ⟨vI, vG, vC, vH⟩ = renderedDoc today vI vG vC vH := by
  have hp1 : ¬ Occurs tokDATE (tmplSeg1 ++ (tokINTRO ++ (tmplSeg2 ++ (tokGRID ++ (tmplSeg3 ++ (tokCORE ++ (tmplSeg4 ++ (tokHORIZON ++ (tmplSeg5 ++ (tokTRIVIA ++ (tmplSeg6))))))))))) :=
    safePre_not_occurs tokDATE_ne (safePre_append safe_DATE_tmplSeg1 (safePre_append safe_DATE_tokINTRO (safePre_append safe_DATE_tmplSeg2 (safePre_append safe_DATE_tokGRID (safePre_append safe_DATE_tmplSeg3 (safePre_append safe_DATE_tokCORE (safePre_append safe_DATE_tmplSeg4 (safePre_append safe_DATE_tokHORIZON (safePre_append safe_DATE_tmplSeg5 (safePre_append safe_DATE_tokTRIVIA (safe_DATE_tmplSeg6)))))))))))
  have hp2 : ¬ Occurs tokINTRO (tmplSeg2 ++ (tokGRID ++ (tmplSeg3 ++ (tokCORE ++ (tmplSeg4 ++ (tokHORIZON ++ (tmplSeg5 ++ (tokTRIVIA ++ (tmplSeg6))))))))) :=
    safePre_not_occurs tokINTRO_ne (safePre_append safe_INTRO_tmplSeg2 (safePre_append safe_INTRO_tokGRID (safePre_append safe_INTRO_tmplSeg3 (safePre_append safe_INTRO_tokCORE (safePre_append safe_INTRO_tmplSeg4 (safePre_append safe_INTRO_tokHORIZON (safePre_append safe_INTRO_tmplSeg5 (safePre_append safe_INTRO_tokTRIVIA (safe_INTRO_tmplSeg6)))))))))
  have hp3 : ¬ Occurs tokGRID (tmplSeg3 ++ (tokCORE ++ (tmplSeg4 ++ (tokHORIZON ++ (tmplSeg5 ++ (tokTRIVIA ++ (tmplSeg6))))))) :=
    safePre_not_occurs tokGRID_ne (safePre_append safe_GRID_tmplSeg3 (safePre_append safe_GRID_tokCORE (safePre_append safe_GRID_tmplSeg4 (safePre_append safe_GRID_tokHORIZON (safePre_append safe_GRID_tmplSeg5 (safePre_append safe_GRID_tokTRIVIA (safe_GRID_tmplSeg6)))))))
  have hp4 : ¬ Occurs tokCORE (tmplSeg4 ++ (tokHORIZON ++ (tmplSeg5 ++ (tokTRIVIA ++ (tmplSeg6))))) :=
    safePre_not_occurs tokCORE_ne (safePre_append safe_CORE_tmplSeg4 (safePre_append safe_CORE_tokHORIZON (safePre_append safe_CORE_tmplSeg5 (safePre_append safe_CORE_tokTRIVIA (safe_CORE_tmplSeg6)))))
  have hp5 : ¬ Occurs tokHORIZON (tmplSeg5 ++ (tokTRIVIA ++ (tmplSeg6))) :=
    safePre_not_occurs tokHORIZON_ne (safePre_append safe_HORIZON_tmplSeg5 (safePre_append safe_HORIZON_tokTRIVIA (safe_HORIZON_tmplSeg6)))
  have hp6 : ¬ Occurs tokTRIVIA (tmplSeg6) :=
    safePre_not_occurs tokTRIVIA_ne (safe_TRIVIA_tmplSeg6)
  unfold fillTemplate HTML_TEMPLATE renderedDoc
  simp only [List.append_assoc]
  rw [replaceAll_append_safe _ _ safe_DATE_tmplSeg0,
      replaceAll_head _ _ _ tokDATE_ne,
      replaceAll_not_occurs _ hp1]
  rw [replaceAll_append_safe _ _ safe_INTRO_tmplSeg0,
      replaceAll_append_safe _ _ htodayINTRO,
      replaceAll_append_safe _ _ safe_INTRO_tmplSeg1,
      replaceAll_head _ _ _ tokINTRO_ne,
      replaceAll_not_occurs _ hp2]
  rw [replaceAll_append_safe _ _ safe_GRID_tmplSeg0,
      replaceAll_append_safe _ _ htodayGRID,
      replaceAll_append_safe _ _ safe_GRID_tmplSeg1,
      replaceAll_append_safe _ _ hvIGRID,
      replaceAll_append_safe _ _ safe_GRID_tmplSeg2,
      replaceAll_head _ _ _ tokGRID_ne,
      replaceAll_not_occurs _ hp3]
  rw [replaceAll_append_safe _ _ safe_CORE_tmplSeg0,
      replaceAll_append_safe _ _ htodayCORE,
      replaceAll_append_safe _ _ safe_CORE_tmplSeg1,
      replaceAll_append_safe _ _ hvICORE,
      replaceAll_append_safe _ _ safe_CORE_tmplSeg2,
      replaceAll_append_safe _ _ hvGCORE,
      replaceAll_append_safe _ _ safe_CORE_tmplSeg3,
      replaceAll_head _ _ _ tokCORE_ne,
      replaceAll_not_occurs _ hp4]
  rw [replaceAll_append_safe _ _ safe_HORIZON_tmplSeg0,
      replaceAll_append_safe _ _ htodayHORIZON,
      replaceAll_append_safe _ _ safe_HORIZON_tmplSeg1,
      replaceAll_append_safe _ _ hvIHORIZON,
      replaceAll_append_safe _ _ safe_HORIZON_tmplSeg2,
      replaceAll_append_safe _ _ hvGHORIZON,
      replaceAll_append_safe _ _ safe_HORIZON_tmplSeg3,
      replaceAll_append_safe _ _ hvCHORIZON,
      replaceAll_append_safe _ _ safe_HORIZON_tmplSeg4,
      replaceAll_head _ _ _ tokHORIZON_ne,
      replaceAll_not_occurs _ hp5]
  rw [replaceAll_append_safe _ _ safe_TRIVIA_tmplSeg0,
      replaceAll_append_safe _ _ htodayTRIVIA,
      replaceAll_append_safe _ _ safe_TRIVIA_tmplSeg1,
      replaceAll_append_safe _ _ hvITRIVIA,
      replaceAll_append_safe _ _ safe_TRIVIA_tmplSeg2,
      replaceAll_append_safe _ _ hvGTRIVIA,
      replaceAll_append_safe _ _ safe_TRIVIA_tmplSeg3,
      replaceAll_append_safe _ _ hvCTRIVIA,
      replaceAll_append_safe _ _ safe_TRIVIA_tmplSeg4,
      replaceAll_append_safe _ _ hvHTRIVIA,
      replaceAll_append_safe _ _ safe_TRIVIA_tmplSeg5,
      replaceAll_head _ _ _ tokTRIVIA_ne,
      replaceAll_not_occurs _ hp6]

/-- Shape of the template fill for brace-free section values (the common
case: values derived from content containing no left brace). -/
theorem fillTemplate_shape (today vI vG vC vH : Chars)
    (hd : lbrace ∉ today) (hI : lbrace ∉ vI) (hG : lbrace ∉ vG)
    (hC : lbrace ∉ vC) (hH : lbrace ∉ vH) :
    fillTemplate today ⟨vI, vG, vC, vH⟩ = renderedDoc today vI vG vC vH :=
  fillTemplate_shape_gen today vI vG vC vH
    (safe_INTRO_val hd) (safe_GRID_val hd) (safe_CORE_val hd) (safe_HORIZON_val hd)
    (safe_TRIVIA_val hd)
    (safe_GRID_val hI) (safe_CORE_val hI) (safe_HORIZON_val hI) (safe_TRIVIA_val hI)
    (safe_CORE_val hG) (safe_HORIZON_val hG) (safe_TRIVIA_val hG)
    (safe_HORIZON_val hC) (safe_TRIVIA_val hC)
    (safe_TRIVIA_val hH)

/- ## Claim theorems -/

/-- C6: `parse_content_to_html` returns its failure signal (`none`) if and
only if the input is absent (`None`) or the empty string; every non-empty
input yields a rendered document (the function is total — Python raises
nowhere in it — and sections without matching content stay empty strings by
initialisation). -/
theorem c6_parse_none_iff (today : Chars) (content : Option Chars) :
    parse_content_to_html today content = none ↔ content = none ∨ content = some [] := by
  cases content with
  | none => simp [parse_content_to_html]
  | some c =>
    by_cases hc : c = []
    · subst hc
      simp [parse_content_to_html]
    · simp [parse_content_to_html, hc]

/-- C9: the scheduled cron endpoint is guarded by the shared secret: when a
secret is configured (set and non-empty) and the `X-Cron-Secret` header does
not match, the endpoint answers the 401 unauthorized signal without running
generation (the outcome is independent of the generator's output); when no
secret is configured, the request proceeds to the generation body for any
header value. -/
theorem c9_cron_auth (cronSecret provided : Option Chars) (nid : Chars)
    (c1 c2 : Option Chars) :
    (cronSecret ≠ none → cronSecret ≠ some [] → provided ≠ cronSecret →
      cron_generate cronSecret provided nid c1 = CronOutcome.unauthorized ∧
      cron_generate cronSecret provided nid c1 = cron_generate cronSecret provided nid c2) ∧
    ((cronSecret = none ∨ cronSecret = some []) →
      cron_generate cronSecret provided nid c1 = cronRun nid c1) := by
  constructor
  · intro hs he hp
    have hcfg : ¬ (cronSecret = none ∨ cronSecret = some []) := by
      rintro (h | h) <;> [exact hs h; exact he h]
    constructor
    · simp [cron_generate, hcfg, hp]
    · simp [cron_generate, hcfg, hp]
  · intro hcfg
    simp [cron_generate, hcfg]

/-- Closed witness for C9: a configured secret with a wrong header is
rejected with 401, and an unset secret lets the request through to the
generation body. -/
theorem c9_cron_auth_witness :
    cron_generate (some "s".toList) (some "x".toList) "n".toList (some "c".toList) =
      CronOutcome.unauthorized ∧
    cron_generate none (some "x".toList) "n".toList (some "c".toList) =
      cronRun "n".toList (some "c".toList) :=
  ⟨((c9_cron_auth (some "s".toList) (some "x".toList) "n".toList (some "c".toList)
      (some "d".toList)).1 (by decide) (by decide) (by decide)).1,
   (c9_cron_auth none (some "x".toList) "n".toList (some "c".toList)
      (some "d".toList)).2 (Or.inl rfl)⟩

/-- C10: whenever `POST /api/generate` answers a success envelope, the `html`
field of the response is exactly the `html_content` stored under the returned
`newsletter_id` — what is returned to the caller and what is persisted are
the same document. -/
theorem c10_api_success_persists (today nid : Chars) (content : Option Chars)
    (h : (api_generate today nid content).success = true) :
    ∃ doc, (api_generate today nid content).html = some doc ∧
      (api_generate today nid content).newsletterId = some nid ∧
      alookup nid (api_generate today nid content).dbWrites = some doc := by
  cases content with
  | none => simp [api_generate] at h
  | some c =>
    by_cases hc : c = []
    · subst hc
      simp [api_generate] at h
    · cases hp : parse_content_to_html today (some c) with
      | none => simp [api_generate, hc, hp] at h
      | some doc =>
        refine ⟨doc, ?_, ?_, ?_⟩ <;> simp [api_generate, hc, hp, alookup]

/-- Closed witness for C10: a concrete successful generation, with the
response html present, the id echoed, and the stored row retrievable. -/
theorem c10_api_success_persists_witness :
    (api_generate "d".toList "id1".toList (some "x".toList)).success = true ∧
    ∃ doc, (api_generate "d".toList "id1".toList (some "x".toList)).html = some doc ∧
      (api_generate "d".toList "id1".toList (some "x".toList)).newsletterId = some "id1".toList ∧
      alookup "id1".toList (api_generate "d".toList "id1".toList (some "x".toList)).dbWrites = some doc :=
  ⟨rfl, c10_api_success_persists "d".toList "id1".toList (some "x".toList) rfl⟩

/-- Rewriting pass is the identity when no suffix starts a ticker match. -/
theorem subTickers_no_match : ∀ {s : Chars}, hasTicker s = false → subTickers s = s := by
  intro s
  induction s using subTickers.induct with
  | case1 => intro _; simp [subTickers]
  | case2 c s g1 tick rest hmatch ih =>
    intro h
    simp only [hasTicker, Bool.or_eq_false_iff] at h
    rw [hmatch] at h
    simp at h
  | case3 c s hnone ih =>
    intro h
    simp only [hasTicker, Bool.or_eq_false_iff] at h
    rw [subTickers, hnone]
    rw [ih h.2]

unseal replaceAll subTickers in
/-- C1 counterexample: the ticker formatter is not idempotent.  On the spec's
own example `"NVIDIA Corp (NVDA) rallied"`, the first pass wraps the mention
in `<u><strong><u>…</u></strong></u>`; the second pass strips only the
`**`/`<u>`/`</u>` markers, leaving the `<strong>` pair, rematches the name,
and wraps it again — the two results differ. -/
theorem c1_counterexample :
    process_story_formatting (process_story_formatting "NVIDIA Corp (NVDA) rallied".toList) ≠
      process_story_formatting "NVIDIA Corp (NVDA) rallied".toList := by
  decide

/-- C1 amended: the formatter is idempotent exactly on the inputs where the
rewrap pass has nothing to do: if stripping is stable on `x` and the stripped
string contains no ticker-pattern match, then
`format (format x) = format x`.  In general idempotence fails, because the
strip step removes only `**`, `<u>`, `</u>` and not the `<strong>` wrapper
that the rewrap pass emits. -/
theorem c1_amended (x : Chars)
    (hstable : stripEmphasis (stripEmphasis x) = stripEmphasis x)
    (hnom : hasTicker (stripEmphasis x) = false) :
    process_story_formatting (process_story_formatting x) = process_story_formatting x := by
  unfold process_story_formatting
  rw [subTickers_no_match hnom, hstable, subTickers_no_match hnom]

unseal replaceAll in
/-- Closed witness for the amended C1: a plain sentence with no emphasis
markers and no ticker pattern is a fixed point of the formatter. -/
theorem c1_amended_witness :
    stripEmphasis (stripEmphasis "hello world.".toList) = stripEmphasis "hello world.".toList ∧
    hasTicker (stripEmphasis "hello world.".toList) = false ∧
    process_story_formatting (process_story_formatting "hello world.".toList) =
      process_story_formatting "hello world.".toList :=
  ⟨by decide, by decide, c1_amended _ (by decide) (by decide)⟩

unseal parseLoop in
/-- C5 (code-bug evidence): the scheduled cron path returns a success
envelope for content that skipped the parse/render stage entirely.  At a
concrete generator output `"hello"`, `cron_generate` succeeds and stores the
raw text verbatim; the parse/render stage on the same input produces a
different document (the filled shell, over four hundred characters of HTML);
and the `POST /api/generate` path — per the claim — returns exactly the
parsed, rendered document. -/
theorem c5_cron_stores_unparsed :
    cron_generate none none "id1".toList (some "hello".toList) =
      CronOutcome.success "id1".toList "hello".toList ∧
    parse_content_to_html "July 4, 2025".toList (some "hello".toList) ≠
      some "hello".toList ∧
    (api_generate "July 4, 2025".toList "id1".toList (some "hello".toList)).html =
      some (fillTemplate "July 4, 2025".toList (parseSections "hello".toList)) := by
  refine ⟨rfl, ?_, rfl⟩
  have hsec : parseSections "hello".toList = ⟨[], [], [], []⟩ := rfl
  have hfill := fillTemplate_shape "July 4, 2025".toList [] [] [] []
    (by decide) (by decide) (by decide) (by decide) (by decide)
  intro h
  have hparse : parse_content_to_html "July 4, 2025".toList (some "hello".toList) =
      some (fillTemplate "July 4, 2025".toList ⟨[], [], [], []⟩) := by
    rw [← hsec]
    rfl
  rw [hparse, hfill] at h
  have h2 := Option.some.inj h
  have hlen := congrArg List.length h2
  have h450 : tmplSeg0c0.length = 450 := by decide
  have hhello : ("hello".toList).length = 5 := by decide
  rw [hhello] at hlen
  have hge : 450 ≤ (renderedDoc "July 4, 2025".toList [] [] [] []).length := by
    unfold renderedDoc tmplSeg0
    simp only [List.append_assoc, List.length_append]
    omega
  omega

/- ## Lemmas for the market-data collector -/

theorem alookup_append_right (d e : List (Chars × Chars)) (k : Chars)
    (h : alookup k d = none) : alookup k (d ++ e) = alookup k e := by
  induction d with
  | nil => simp
  | cons p d ih =>
    rw [alookup] at h
    rw [List.cons_append, alookup]
    by_cases hp : p.1 = k
    · rw [if_pos hp] at h
      exact absurd h (by simp)
    · rw [if_neg hp] at h ⊢
      exact ih h

theorem alookup_map_overwrite (d : List (Chars × Chars)) (k v k' : Chars) :
    alookup k' (d.map (fun p => if p.1 = k then (p.1, v) else p)) =
      if k' = k ∧ (alookup k' d).isSome then some v else alookup k' d := by
  induction d with
  | nil => simp [alookup]
  | cons p d ih =>
    rw [List.map_cons]
    by_cases hp : p.1 = k
    · rw [if_pos hp]
      rw [alookup, alookup]
      by_cases hk' : p.1 = k'
      · rw [if_pos hk', if_pos hk']
        rw [if_pos ⟨by rw [← hk', hp], by simp⟩]
      · rw [if_neg hk', if_neg hk', ih]
    · rw [if_neg hp]
      rw [alookup, alookup]
      by_cases hk' : p.1 = k'
      · rw [if_pos hk', if_pos hk']
        rw [if_neg]
        rintro ⟨he, -⟩
        exact hp (by rw [hk', he])
      · rw [if_neg hk', if_neg hk', ih]

theorem alookup_aset_self (d : List (Chars × Chars)) (k v : Chars) :
    alookup k (aset d k v) = some v := by
  unfold aset
  split
  · rename_i hsome
    rw [alookup_map_overwrite, if_pos ⟨rfl, hsome⟩]
  · rename_i habs
    have hnone : alookup k d = none := by
      cases hq : alookup k d
      · rfl
      · rw [hq] at habs
        exact absurd rfl habs
    rw [alookup_append_right _ _ _ hnone, alookup]
    simp

theorem alookup_append_single_other (d : List (Chars × Chars)) (k k' v : Chars)
    (h : k' ≠ k) : alookup k' (d ++ [(k, v)]) = alookup k' d := by
  induction d with
  | nil =>
    simp only [List.nil_append, alookup]
    rw [if_neg (fun he => h he.symm)]
  | cons p d ih =>
    rw [List.cons_append, alookup, alookup]
    by_cases hk' : p.1 = k'
    · rw [if_pos hk', if_pos hk']
    · rw [if_neg hk', if_neg hk', ih]

theorem alookup_aset_other (d : List (Chars × Chars)) (k k' v : Chars) (h : k' ≠ k) :
    alookup k' (aset d k v) = alookup k' d := by
  unfold aset
  split
  · rw [alookup_map_overwrite, if_neg (fun hc => h hc.1)]
  · exact alookup_append_single_other d k k' v h

theorem alookup_mem {d : List (Chars × Chars)} {k v : Chars}
    (h : alookup k d = some v) : (k, v) ∈ d := by
  induction d with
  | nil => simp [alookup] at h
  | cons p d ih =>
    by_cases hp : p.1 = k
    · rw [alookup, if_pos hp] at h
      obtain rfl := Option.some.inj h
      rw [← hp]
      exact List.mem_cons_self p d
    · rw [alookup, if_neg hp] at h
      exact List.mem_cons_of_mem _ (ih h)

/-- All values ever inserted by the collector are the N/A sentinel. -/
def AllNA (d : List (Chars × Chars)) : Prop := ∀ p ∈ d, p.2 = naVal

theorem allNA_aset {d : List (Chars × Chars)} (k : Chars) (h : AllNA d) :
    AllNA (aset d k naVal) := by
  unfold aset
  split
  · intro p hp
    rw [List.mem_map] at hp
    obtain ⟨q, hq, he⟩ := hp
    by_cases h1 : q.1 = k
    · rw [if_pos h1] at he
      rw [← he]
    · rw [if_neg h1] at he
      exact he ▸ h q hq
  · intro p hp
    rw [List.mem_append] at hp
    rcases hp with hp | hp
    · exact h p hp
    · simp only [List.mem_singleton] at hp
      rw [hp]

theorem allNA_markNA {d : List (Chars × Chars)} (k : Chars) (h : AllNA d) :
    AllNA (markNA d k) := by
  unfold markNA
  split
  · exact allNA_aset _ (allNA_aset _ h)
  · exact h

theorem allNA_branch {d : List (Chars × Chars)} (b : Prop) [Decidable b] (k : Chars)
    (h : AllNA d) : AllNA (if b then markNA d k else d) := by
  split
  · exact allNA_markNA _ h
  · exact h

theorem allNA_scanResult {d : List (Chars × Chars)} (r : SearchResult) (h : AllNA d) :
    AllNA (scanResult d r) := by
  unfold scanResult
  exact allNA_branch _ _ (allNA_branch _ _ (allNA_branch _ _ (allNA_branch _ _
    (allNA_branch _ _ (allNA_branch _ _ (allNA_branch _ _ (allNA_branch _ _
      (allNA_branch _ _ h))))))))

theorem allNA_foldl_scan (rs : List SearchResult) {d : List (Chars × Chars)}
    (h : AllNA d) : AllNA (rs.foldl scanResult d) := by
  induction rs generalizing d with
  | nil => exact h
  | cons r rs ih => exact ih (allNA_scanResult r h)

theorem allNA_foldl_fill (ms : List Chars) {d : List (Chars × Chars)}
    (h : AllNA d) : AllNA (ms.foldl (fun d m => markNA d m) d) := by
  induction ms generalizing d with
  | nil => exact h
  | cons m ms ih => exact ih (allNA_markNA m h)

theorem isSome_aset {d : List (Chars × Chars)} {k : Chars} (k' v : Chars)
    (h : (alookup k d).isSome) : (alookup k (aset d k' v)).isSome := by
  by_cases he : k = k'
  · subst he
    rw [alookup_aset_self]
    rfl
  · rw [alookup_aset_other _ _ _ _ he]
    exact h

theorem isSome_markNA {d : List (Chars × Chars)} {k : Chars} (k' : Chars)
    (h : (alookup k d).isSome) : (alookup k (markNA d k')).isSome := by
  unfold markNA
  split
  · exact isSome_aset _ _ (isSome_aset _ _ h)
  · exact h

theorem isSome_foldl_fill (ms : List Chars) {d : List (Chars × Chars)} {k : Chars}
    (h : (alookup k d).isSome) :
    (alookup k (ms.foldl (fun d m => markNA d m) d)).isSome := by
  induction ms generalizing d with
  | nil => exact h
  | cons m ms ih => exact ih (isSome_markNA m h)

theorem markNA_self_present {d : List (Chars × Chars)} (k : Chars)
    (hpair : (alookup k d).isSome → (alookup (k ++ chgSuffix) d).isSome) :
    (alookup k (markNA d k)).isSome ∧ (alookup (k ++ chgSuffix) (markNA d k)).isSome := by
  have hk : k ≠ k ++ chgSuffix := by
    intro he
    have := congrArg List.length he
    simp [chgSuffix] at this
  unfold markNA
  split
  · constructor
    · rw [alookup_aset_other _ _ _ _ hk, alookup_aset_self]
      rfl
    · rw [alookup_aset_self]
      rfl
  · rename_i hp
    have hs : (alookup k d).isSome := by
      cases hq : alookup k d
      · exact absurd hq hp
      · rfl
    exact ⟨hs, hpair hs⟩

/-- Pairing invariant of the collector: whenever a required label is present,
its change entry is present too (they are always inserted together). -/
def PairedNA (d : List (Chars × Chars)) : Prop :=
  ∀ m ∈ requiredMarkets, (alookup m d).isSome → (alookup (m ++ chgSuffix) d).isSome

theorem req_not_chg : ∀ m ∈ requiredMarkets, ∀ k ∈ requiredMarkets, m ≠ k ++ chgSuffix := by
  decide

theorem paired_markNA {d : List (Chars × Chars)} {k : Chars} (hk : k ∈ requiredMarkets)
    (h : PairedNA d) : PairedNA (markNA d k) := by
  intro m hm
  unfold markNA
  split
  · intro hsm
    by_cases hmk : m = k
    · subst hmk
      rw [alookup_aset_self]
      rfl
    · have hm1 : m ≠ k := hmk
      have hm2 : m ≠ k ++ chgSuffix := req_not_chg m hm k hk
      rw [alookup_aset_other _ _ _ _ hm2, alookup_aset_other _ _ _ _ hm1] at hsm
      have hc := h m hm hsm
      have hc1 : m ++ chgSuffix ≠ k := fun he => req_not_chg k hk m hm he.symm
      have hc2 : m ++ chgSuffix ≠ k ++ chgSuffix := fun he => hmk (List.append_cancel_right he)
      rw [alookup_aset_other _ _ _ _ hc2, alookup_aset_other _ _ _ _ hc1]
      exact hc
  · exact h m hm

theorem paired_branch {d : List (Chars × Chars)} (b : Prop) [Decidable b] {k : Chars}
    (hk : k ∈ requiredMarkets) (h : PairedNA d) :
    PairedNA (if b then markNA d k else d) := by
  split
  · exact paired_markNA hk h
  · exact h

theorem paired_scanResult {d : List (Chars × Chars)} (r : SearchResult)
    (h : PairedNA d) : PairedNA (scanResult d r) := by
  unfold scanResult
  exact paired_branch _ (by decide) (paired_branch _ (by decide) (paired_branch _ (by decide)
    (paired_branch _ (by decide) (paired_branch _ (by decide) (paired_branch _ (by decide)
      (paired_branch _ (by decide) (paired_branch _ (by decide)
        (paired_branch _ (by decide) h))))))))

theorem paired_foldl_scan (rs : List SearchResult) {d : List (Chars × Chars)}
    (h : PairedNA d) : PairedNA (rs.foldl scanResult d) := by
  induction rs generalizing d with
  | nil => exact h
  | cons r rs ih => exact ih (paired_scanResult r h)

theorem fill_present (ms : List Chars) {d : List (Chars × Chars)}
    (hsub : ∀ k ∈ ms, k ∈ requiredMarkets) (hpair : PairedNA d) :
    ∀ m ∈ ms, (alookup m (ms.foldl (fun d m => markNA d m) d)).isSome ∧
      (alookup (m ++ chgSuffix) (ms.foldl (fun d m => markNA d m) d)).isSome := by
  induction ms generalizing d with
  | nil => intro m hm; simp at hm
  | cons k ms ih =>
    intro m hm
    simp only [List.foldl_cons]
    rcases List.mem_cons.mp hm with rfl | hm'
    · have hself := markNA_self_present m (hpair m (hsub m (List.mem_cons_self _ _)))
      exact ⟨isSome_foldl_fill ms hself.1, isSome_foldl_fill ms hself.2⟩
    · exact ih (fun j hj => hsub j (List.mem_cons_of_mem _ hj))
        (paired_markNA (hsub k (List.mem_cons_self _ _)) hpair) m hm'

/-- C8: for every outcome of the search collaborator (each query result list
arbitrary, a failed search degrading to the empty list at the
`brave_search_market_data` boundary), the mapping returned by
`fetch_market_data` contains every one of the 9 fixed instrument labels,
each with a value entry and a change entry holding the "N/A" sentinel. -/
theorem c8_market_data_complete (ind com : List SearchResult) (m : Chars)
    (hm : m ∈ requiredMarkets) :
    alookup m (fetch_market_data ind com) = some naVal ∧
    alookup (m ++ chgSuffix) (fetch_market_data ind com) = some naVal := by
  unfold fetch_market_data
  have hNA0 : AllNA ((ind ++ com).foldl scanResult []) :=
    allNA_foldl_scan _ (by intro p hp; simp at hp)
  have hpair0 : PairedNA ((ind ++ com).foldl scanResult []) :=
    paired_foldl_scan _ (by intro j hj hs; simp [alookup] at hs)
  have hNA : AllNA (requiredMarkets.foldl (fun d m => markNA d m)
      ((ind ++ com).foldl scanResult [])) := allNA_foldl_fill _ hNA0
  have hpres := fill_present requiredMarkets (fun k hk => hk) hpair0 m hm
  constructor
  · cases hq : alookup m (requiredMarkets.foldl (fun d m => markNA d m)
        ((ind ++ com).foldl scanResult [])) with
    | none => rw [hq] at hpres; exact absurd hpres.1 (by simp)
    | some v => exact congrArg some (hNA (m, v) (alookup_mem hq))
  · cases hq : alookup (m ++ chgSuffix) (requiredMarkets.foldl (fun d m => markNA d m)
        ((ind ++ com).foldl scanResult [])) with
    | none => rw [hq] at hpres; exact absurd hpres.2 (by simp)
    | some v => exact congrArg some (hNA (m ++ chgSuffix, v) (alookup_mem hq))

/-- Closed witness for C8: with both searches failed (empty result lists),
the S&P 500 label and its change entry are present with the sentinel. -/
theorem c8_market_data_complete_witness :
    "S&P 500".toList ∈ requiredMarkets ∧
    alookup "S&P 500".toList (fetch_market_data [] []) = some naVal ∧
    alookup ("S&P 500".toList ++ chgSuffix) (fetch_market_data [] []) = some naVal :=
  ⟨by decide, (c8_market_data_complete [] [] "S&P 500".toList (by decide)).1,
   (c8_market_data_complete [] [] "S&P 500".toList (by decide)).2⟩

/- ## Parser run lemmas -/

theorem pySplit_no_sep {sep : Char} : ∀ {x : Chars}, sep ∉ x → pySplit sep x = [x] := by
  intro x
  induction x with
  | nil => intro _; rfl
  | cons c t ih =>
    intro h
    have hcs : ¬ c = sep := by
      intro he
      exact h (by rw [he]; exact List.mem_cons_self _ _)
    rw [pySplit, if_neg hcs]
    rw [ih (fun hm => h (List.mem_cons_of_mem c hm))]

theorem pySplit_sep_append {sep : Char} (r : Chars) :
    ∀ {x : Chars}, sep ∉ x → pySplit sep (x ++ sep :: r) = x :: pySplit sep r := by
  intro x
  induction x with
  | nil =>
    intro _
    rw [List.nil_append, pySplit, if_pos rfl]
  | cons c t ih =>
    intro h
    have hcs : ¬ c = sep := by
      intro he
      exact h (by rw [he]; exact List.mem_cons_self _ _)
    rw [List.cons_append, pySplit, if_neg hcs]
    rw [ih (fun hm => h (List.mem_cons_of_mem c hm))]

theorem pySplit_join (sep : Char) :
    ∀ (ls : List Chars), ls ≠ [] → (∀ l ∈ ls, sep ∉ l) →
      pySplit sep (joinWith [sep] ls) = ls := by
  intro ls
  induction ls with
  | nil => intro h; exact absurd rfl h
  | cons x t ih =>
    intro _ h
    cases t with
    | nil => exact pySplit_no_sep (h x (List.mem_cons_self _ _))
    | cons y u =>
      have hx : sep ∉ x := h x (List.mem_cons_self _ _)
      rw [joinWith, List.append_assoc, List.singleton_append,
        pySplit_sep_append _ hx, ih (by simp) (fun l hl => h l (List.mem_cons_of_mem x hl))]

theorem parseLoop_nil (st : PState) : parseLoop [] st = st.sects := by
  rw [parseLoop.eq_def]

/-- The five header strings, for stating non-header conditions. -/
def allHeaders : List Chars := [hdrIntro, hdrGrid, hdrCore, hdrHorizon, hdrGame]

/-- When the current section is cleared (or GAME_CHOICE) and no remaining
line is a header, the loop changes nothing. -/
theorem parseLoop_skip : ∀ (ls : List Chars) (st : PState),
    (st.cur = none ∨ st.cur = some Sec.game) →
    (∀ l ∈ ls, pstrip l ∉ allHeaders) →
    parseLoop ls st = st.sects := by
  intro ls
  induction ls with
  | nil => intro st _ _; exact parseLoop_nil st
  | cons l ls ih =>
    intro st hcur hno
    have hl := hno l (List.mem_cons_self _ _)
    simp only [allHeaders, List.mem_cons, List.not_mem_nil, not_or] at hl
    obtain ⟨n1, n2, n3, n4, n5, -⟩ := hl
    rw [parseLoop.eq_def]
    simp only [if_neg n1, if_neg n2, if_neg n3, if_neg n4, if_neg n5]
    rcases hcur with hc | hc
    · rw [hc]
      exact ih st (Or.inl hc) (fun j hj => hno j (List.mem_cons_of_mem _ hj))
    · rw [hc]
      exact ih st (Or.inr hc) (fun j hj => hno j (List.mem_cons_of_mem _ hj))

theorem joinWith_cons_ne_nil (sep x : Chars) (xs : List Chars) (hx : x ≠ []) :
    joinWith sep (x :: xs) ≠ [] := by
  cases xs with
  | nil => exact hx
  | cons y u =>
    rw [joinWith]
    simp only [ne_eq, List.append_assoc, List.append_eq_nil]
    rintro ⟨h, -⟩
    exact hx h

theorem parseLoop_cons_hdr_core (l : Chars) (ls : List Chars) (st : PState)
    (h : pstrip l = hdrCore) :
    parseLoop (l :: ls) st = parseLoop ls { st with cur := some Sec.core, buffer := [] } := by
  rw [parseLoop.eq_def]
  dsimp only
  rw [if_neg (by rw [h]; decide), if_neg (by rw [h]; decide), if_pos h]

theorem parseLoop_cons_hdr_horizon (l : Chars) (ls : List Chars) (st : PState)
    (h : pstrip l = hdrHorizon) :
    parseLoop (l :: ls) st = parseLoop ls { st with cur := some Sec.horizon, buffer := [] } := by
  rw [parseLoop.eq_def]
  dsimp only
  rw [if_neg (by rw [h]; decide), if_neg (by rw [h]; decide), if_neg (by rw [h]; decide),
    if_pos h]

theorem parseLoop_cons_hdr_grid (l : Chars) (ls : List Chars) (st : PState)
    (h : pstrip l = hdrGrid) :
    parseLoop (l :: ls) st = parseLoop ls { st with cur := some Sec.grid, buffer := [] } := by
  rw [parseLoop.eq_def]
  dsimp only
  rw [if_neg (by rw [h]; decide), if_pos h]

theorem parseLoop_story_run_core (l : Chars) (ls : List Chars) (st : PState)
    (hcur : st.cur = some Sec.core)
    (hnh : pstrip l ∉ allHeaders)
    (hok : storyLineOk (pstrip l) = true)
    (hcont : ∀ j ∈ ls, storyCont j = true) :
    parseLoop (l :: ls) st =
      if 50 < (joinSp (pstrip l :: ls.map pstrip)).length then
        { st.sects with coreStories := st.sects.coreStories ++ storySep ++ storyHtml (process_story_formatting (joinSp (pstrip l :: ls.map pstrip))) }
      else st.sects := by
  simp only [allHeaders, List.mem_cons, List.not_mem_nil, not_or] at hnh
  obtain ⟨n1, n2, n3, n4, n5, -⟩ := hnh
  have htake : ls.takeWhile storyCont = ls := List.takeWhile_eq_self_iff.mpr hcont
  have hdrop : ls.dropWhile storyCont = [] := List.dropWhile_eq_nil_iff.mpr hcont
  have hne : joinSp (pstrip l :: ls.map pstrip) ≠ [] := by
    apply joinWith_cons_ne_nil
    simp only [storyLineOk, Bool.and_eq_true, decide_eq_true_eq, ne_eq,
      Bool.not_eq_true'] at hok
    exact hok.1
  rw [parseLoop.eq_def]
  dsimp only
  rw [if_neg n1, if_neg n2, if_neg n3, if_neg n4, if_neg n5, hcur]
  simp only [hok, if_true, htake, hdrop]
  by_cases h50 : 50 < (joinSp (pstrip l :: ls.map pstrip)).length
  · rw [if_pos ⟨hne, h50⟩, if_pos h50, parseLoop_nil]
  · rw [if_neg (fun hc => h50 hc.2), if_neg h50, parseLoop_nil]

theorem parseLoop_story_run_horizon (l : Chars) (ls : List Chars) (st : PState)
    (hcur : st.cur = some Sec.horizon)
    (hnh : pstrip l ∉ allHeaders)
    (hok : storyLineOk (pstrip l) = true)
    (hcont : ∀ j ∈ ls, storyCont j = true) :
    parseLoop (l :: ls) st =
      if 50 < (joinSp (pstrip l :: ls.map pstrip)).length then
        { st.sects with horizonStories := st.sects.horizonStories ++ storySep ++ storyHtml (process_story_formatting (joinSp (pstrip l :: ls.map pstrip))) }
      else st.sects := by
  simp only [allHeaders, List.mem_cons, List.not_mem_nil, not_or] at hnh
  obtain ⟨n1, n2, n3, n4, n5, -⟩ := hnh
  have htake : ls.takeWhile storyCont = ls := List.takeWhile_eq_self_iff.mpr hcont
  have hdrop : ls.dropWhile storyCont = [] := List.dropWhile_eq_nil_iff.mpr hcont
  have hne : joinSp (pstrip l :: ls.map pstrip) ≠ [] := by
    apply joinWith_cons_ne_nil
    simp only [storyLineOk, Bool.and_eq_true, decide_eq_true_eq, ne_eq,
      Bool.not_eq_true'] at hok
    exact hok.1
  rw [parseLoop.eq_def]
  dsimp only
  rw [if_neg n1, if_neg n2, if_neg n3, if_neg n4, if_neg n5, hcur]
  simp only [hok, if_true, htake, hdrop]
  by_cases h50 : 50 < (joinSp (pstrip l :: ls.map pstrip)).length
  · rw [if_pos ⟨hne, h50⟩, if_pos h50, parseLoop_nil]
  · rw [if_neg (fun hc => h50 hc.2), if_neg h50, parseLoop_nil]

/-- C3 amended: characterisation of the story filter.  For a CORE_STORIES
section made of one maximal run of candidate lines, the joined candidate is
rendered as a story container if and only if it is strictly longer than 50
characters: a candidate of exactly 50 characters is discarded, one of 51 is
kept (the source check is `len(story_text) > 50`, app.py 823). -/
theorem c3_story_filter (l : Chars) (ls : List Chars)
    (hnl : '\n' ∉ l) (hnls : ∀ j ∈ ls, '\n' ∉ j)
    (hnh : pstrip l ∉ allHeaders)
    (hok : storyLineOk (pstrip l) = true)
    (hcont : ∀ j ∈ ls, storyCont j = true) :
    (parseSections (joinWith ['\n'] (hdrCore :: l :: ls))).coreStories =
      if 50 < (joinSp (pstrip l :: ls.map pstrip)).length then
        storySep ++ storyHtml (process_story_formatting (joinSp (pstrip l :: ls.map pstrip)))
      else [] := by
  unfold parseSections
  rw [pySplit_join '\n' (hdrCore :: l :: ls) (by simp) ?hsep]
  case hsep =>
    intro j hj
    rcases List.mem_cons.mp hj with rfl | hj'
    · decide
    · rcases List.mem_cons.mp hj' with rfl | hj''
      · exact hnl
      · exact hnls j hj''
  rw [parseLoop_cons_hdr_core _ _ _ (by decide)]
  rw [parseLoop_story_run_core _ _ _ rfl hnh hok hcont]
  split
  · rfl
  · rfl

unseal parseLoop in
/-- C3 counterexample: a joined candidate story of exactly 50 characters is
not kept — the CORE_STORIES section stays empty, contradicting the claim
that a 50-character candidate is rendered as a story container (the source
keeps a candidate only when its length is strictly greater than 50). -/
theorem c3_counterexample :
    (parseSections "CORE_STORIES:\nxxxxxxxxxxxxxxxxxxxxxxxxxxxxxxxxxxxxxxxxxxxxxxxxxx".toList).coreStories = [] ∧
    ("xxxxxxxxxxxxxxxxxxxxxxxxxxxxxxxxxxxxxxxxxxxxxxxxxx".toList).length = 50 := by
  constructor
  · rfl
  · decide

unseal replaceAll subTickers parseLoop in
/-- Closed witness for the amended C3: a 51-character candidate is rendered
as a story container while a 50-character candidate is dropped. -/
theorem c3_story_filter_witness :
    (parseSections (joinWith ['\n'] (hdrCore :: ["yyyyyyyyyyyyyyyyyyyyyyyyyyyyyyyyyyyyyyyyyyyyyyyyyyy".toList]))).coreStories =
      storySep ++ storyHtml (process_story_formatting "yyyyyyyyyyyyyyyyyyyyyyyyyyyyyyyyyyyyyyyyyyyyyyyyyyy".toList) ∧
    (parseSections (joinWith ['\n'] (hdrCore :: ["xxxxxxxxxxxxxxxxxxxxxxxxxxxxxxxxxxxxxxxxxxxxxxxxxx".toList]))).coreStories = [] := by
  constructor
  · have h := c3_story_filter "yyyyyyyyyyyyyyyyyyyyyyyyyyyyyyyyyyyyyyyyyyyyyyyyyyy".toList []
      (by decide) (by simp) (by decide) (by decide) (by simp)
    rw [h]
    rw [if_pos (by decide)]
    rfl
  · have h := c3_story_filter "xxxxxxxxxxxxxxxxxxxxxxxxxxxxxxxxxxxxxxxxxxxxxxxxxx".toList []
      (by decide) (by simp) (by decide) (by decide) (by simp)
    rw [h]
    rw [if_neg (by decide)]

theorem dropWhile_eq_self_head {α : Type} {p : α → Bool} {e : α} {u : List α}
    (h : List.dropWhile p (e :: u) = e :: u) : p e = false := by
  cases hp : p e
  · rfl
  · rw [List.dropWhile_cons, if_pos hp] at h
    have := congrArg List.length h
    have hle := dropWhile_len_le p u
    simp only [List.length_cons] at this
    omega

theorem dropWhile_cons_false {α : Type} (p : α → Bool) {e : α} (u : List α)
    (h : p e = false) : List.dropWhile p (e :: u) = e :: u := by
  rw [List.dropWhile_cons, if_neg (by rw [h]; simp)]

theorem dropWhile_append_self {α : Type} {p : α → Bool} {u : List α} (v : List α)
    (hu : u.dropWhile p = u) (hne : u ≠ []) : (u ++ v).dropWhile p = u ++ v := by
  cases u with
  | nil => exact absurd rfl hne
  | cons e t =>
    rw [List.cons_append, dropWhile_cons_false _ _ (dropWhile_eq_self_head hu)]

theorem stripL_append_pipe (a r : Chars) (ha : stripL a = a) :
    stripL (a ++ '|' :: r) = a ++ '|' :: r := by
  unfold stripL
  by_cases hnil : a = []
  · subst hnil
    rw [List.nil_append, dropWhile_cons_false _ _ (by decide)]
  · exact dropWhile_append_self _ ha hnil

theorem stripR_rev (c' : Chars) (hr : stripR c' = c') :
    c'.reverse.dropWhile isPyWs = c'.reverse := by
  unfold stripR at hr
  rw [List.reverse_eq_iff] at hr
  exact hr

theorem stripR_append_pipe (x c' : Chars) (hr : stripR c' = c') :
    stripR (x ++ '|' :: c') = x ++ '|' :: c' := by
  unfold stripR
  have hd : ((x ++ '|' :: c').reverse).dropWhile isPyWs = (x ++ '|' :: c').reverse := by
    rw [List.reverse_append, List.reverse_cons, List.append_assoc]
    by_cases hnil : c' = []
    · subst hnil
      simp only [List.reverse_nil, List.nil_append, List.singleton_append]
      exact dropWhile_cons_false _ _ (by decide)
    · exact dropWhile_append_self _ (stripR_rev c' hr)
        (fun he => hnil (by simpa using congrArg List.reverse he))
  rw [hd, List.reverse_reverse]

theorem pstrip_split (w : Chars) (h : pstrip w = w) : stripL w = w ∧ stripR w = w := by
  have hlenL := dropWhile_len_le isPyWs w
  have hlenR : (stripR (stripL w)).length ≤ (stripL w).length := by
    unfold stripR
    rw [List.length_reverse]
    calc ((stripL w).reverse.dropWhile isPyWs).length
        ≤ (stripL w).reverse.length := dropWhile_len_le _ _
      _ = (stripL w).length := List.length_reverse _
  have hlen := congrArg List.length h
  unfold pstrip at hlen
  have hLeq : (stripL w).length = w.length := by
    unfold stripL at *
    omega
  have hL : stripL w = w := by
    unfold stripL at *
    cases w with
    | nil => rfl
    | cons e t =>
      cases hp : isPyWs e
      · exact dropWhile_cons_false _ _ hp
      · rw [List.dropWhile_cons, if_pos hp] at hLeq
        have := dropWhile_len_le isPyWs t
        simp only [List.length_cons] at hLeq
        omega
  refine ⟨hL, ?_⟩
  have : pstrip w = stripR w := by
    unfold pstrip
    rw [hL]
  rw [← this, h]

/-- A well-formed grid-line component: no newline (so the line survives the
newline split), no pipe (so the split on `|` yields exactly three fields),
already stripped (so `strip` is the identity on it). -/
def GoodComp (w : Chars) : Prop := '\n' ∉ w ∧ '|' ∉ w ∧ pstrip w = w

instance (w : Chars) : Decidable (GoodComp w) := by
  unfold GoodComp
  infer_instance

/-- The pipe-delimited input line `label|value|change` of one grid cell. -/
def gridLine (cell : Chars × Chars × Chars) : Chars :=
  cell.1 ++ '|' :: (cell.2.1 ++ '|' :: cell.2.2)

/-- The rendered cell of one parsed grid line. -/
def cellOf (cell : Chars × Chars × Chars) : Chars :=
  cellHtml cell.1 cell.2.1 cell.2.2

theorem gridLine_pstrip (cell : Chars × Chars × Chars)
    (h : GoodComp cell.1 ∧ GoodComp cell.2.1 ∧ GoodComp cell.2.2) :
    pstrip (gridLine cell) = gridLine cell := by
  obtain ⟨⟨-, -, h1⟩, ⟨-, -, h2⟩, ⟨-, -, h3⟩⟩ := h
  unfold gridLine pstrip
  rw [stripL_append_pipe _ _ (pstrip_split _ h1).1]
  rw [stripR_append_pipe _ _ (stripR_append_pipe _ _ (pstrip_split _ h3).2)]

theorem gridLine_split (cell : Chars × Chars × Chars)
    (h : GoodComp cell.1 ∧ GoodComp cell.2.1 ∧ GoodComp cell.2.2) :
    pySplit '|' (gridLine cell) = [cell.1, cell.2.1, cell.2.2] := by
  obtain ⟨⟨-, h1, -⟩, ⟨-, h2, -⟩, ⟨-, h3, -⟩⟩ := h
  unfold gridLine
  rw [pySplit_sep_append _ h1, pySplit_sep_append _ h2, pySplit_no_sep h3]

theorem gridLine_pipe_mem (cell : Chars × Chars × Chars) : '|' ∈ gridLine cell := by
  unfold gridLine
  exact List.mem_append_right _ (List.mem_cons_self _ _)

theorem pipe_not_header {w : Chars} (h : '|' ∈ w) : w ∉ allHeaders := by
  intro hin
  have hnp : ∀ x ∈ allHeaders, '|' ∉ x := by decide
  exact hnp w hin h

theorem gridLine_no_newline (cell : Chars × Chars × Chars)
    (h : GoodComp cell.1 ∧ GoodComp cell.2.1 ∧ GoodComp cell.2.2) :
    '\n' ∉ gridLine cell := by
  obtain ⟨⟨h1, -, -⟩, ⟨h2, -, -⟩, ⟨h3, -, -⟩⟩ := h
  unfold gridLine
  intro hm
  rcases List.mem_append.mp hm with hm | hm
  · exact h1 hm
  · rcases List.mem_cons.mp hm with hm | hm
    · exact absurd hm (by decide)
    · rcases List.mem_append.mp hm with hm | hm
      · exact h2 hm
      · rcases List.mem_cons.mp hm with hm | hm
        · exact absurd hm (by decide)
        · exact h3 hm

theorem parseLoop_grid_run : ∀ (cells : List (Chars × Chars × Chars)) (st : PState),
    st.cur = some Sec.grid → st.buffer.length ≤ 8 →
    (∀ cell ∈ cells, GoodComp cell.1 ∧ GoodComp cell.2.1 ∧ GoodComp cell.2.2) →
    parseLoop (cells.map gridLine) st =
      if st.buffer.length + cells.length < 9 then st.sects
      else { st.sects with marketGrid := tableHtml (st.buffer ++ (cells.take (9 - st.buffer.length)).map cellOf) } := by
  intro cells
  induction cells with
  | nil =>
    intro st hcur hb hgood
    rw [List.map_nil, parseLoop_nil, if_pos (by simpa using Nat.lt_succ_of_le hb)]
  | cons cell cells ih =>
    intro st hcur hb hgood
    have hcell := hgood cell (List.mem_cons_self _ _)
    have hps := gridLine_pstrip cell hcell
    have hnh := pipe_not_header (hps ▸ gridLine_pipe_mem cell)
    simp only [allHeaders, List.mem_cons, List.not_mem_nil, not_or] at hnh
    obtain ⟨n1, n2, n3, n4, n5, -⟩ := hnh
    rw [hps] at n1 n2 n3 n4 n5
    rw [List.map_cons, parseLoop.eq_def]
    dsimp only
    rw [hps, if_neg n1, if_neg n2, if_neg n3, if_neg n4, if_neg n5, hcur]
    rw [if_pos (gridLine_pipe_mem cell), gridLine_split cell hcell]
    have h3len : 3 ≤ ([cell.1, cell.2.1, cell.2.2] : List Chars).length := by simp
    rw [if_pos h3len]
    simp only [List.getD_cons_zero, List.getD_cons_succ]
    rw [(hcell.1).2.2, (hcell.2.1).2.2, (hcell.2.2).2.2]
    by_cases h9 : (st.buffer ++ [cellHtml cell.1 cell.2.1 cell.2.2]).length = 9
    · rw [if_pos h9]
      have hb8 : st.buffer.length = 8 := by
        rw [List.length_append] at h9
        simpa using h9
      rw [parseLoop_skip _ _ (Or.inl rfl) ?hnohdr]
      case hnohdr =>
        intro j hj
        rw [List.mem_map] at hj
        obtain ⟨c2, hc2, rfl⟩ := hj
        have h2 := hgood c2 (List.mem_cons_of_mem _ hc2)
        rw [gridLine_pstrip c2 h2]
        exact pipe_not_header (gridLine_pipe_mem c2)
      rw [if_neg (by simp only [List.length_cons]; omega)]
      have htake : (9 - st.buffer.length) = 1 := by omega
      rw [htake, List.take_succ_cons, List.take_zero, List.map_cons, List.map_nil]
      rfl
    · rw [if_neg h9]
      have hlen : (st.buffer ++ [cellHtml cell.1 cell.2.1 cell.2.2]).length =
          st.buffer.length + 1 := by simp
      have hble : st.buffer.length + 1 ≤ 8 := by
        rw [hlen] at h9
        omega
      rw [ih _ rfl (by simpa using hble) (fun c2 hc2 => hgood c2 (List.mem_cons_of_mem _ hc2))]
      simp only [hlen, List.length_cons]
      by_cases hlt : st.buffer.length + 1 + cells.length < 9
      · rw [if_pos hlt, if_pos (by omega)]
      · rw [if_neg hlt, if_neg (by omega)]
        have htake : 9 - st.buffer.length = (9 - (st.buffer.length + 1)) + 1 := by omega
        rw [htake, List.take_succ_cons, List.map_cons]
        simp only [List.append_assoc, List.singleton_append]
        rfl

/-- C2 amended: the market grid renders 3 rows of 3 cells from the first 9
well-formed `label|value|change` lines, in input-encounter order; with fewer
than 9 such lines the grid section stays empty; with more than 9 the grid is
built from the first 9 and the remaining lines are ignored (after the 9th
cell the buffer is flushed and the current section cleared, app.py 809-813). -/
theorem c2_market_grid (cells : List (Chars × Chars × Chars))
    (hgood : ∀ cell ∈ cells, GoodComp cell.1 ∧ GoodComp cell.2.1 ∧ GoodComp cell.2.2) :
    (parseSections (joinWith ['\n'] (hdrGrid :: cells.map gridLine))).marketGrid =
      if cells.length < 9 then []
      else tableHtml ((cells.take 9).map cellOf) := by
  unfold parseSections
  rw [pySplit_join '\n' (hdrGrid :: cells.map gridLine) (by simp) ?hsep]
  case hsep =>
    intro j hj
    rcases List.mem_cons.mp hj with rfl | hj'
    · decide
    · rw [List.mem_map] at hj'
      obtain ⟨c2, hc2, rfl⟩ := hj'
      exact gridLine_no_newline c2 (hgood c2 hc2)
  rw [parseLoop_cons_hdr_grid _ _ _ (by decide)]
  rw [parseLoop_grid_run cells _ rfl (by simp) hgood]
  simp only [List.length_nil, Nat.zero_add, List.nil_append, Nat.sub_zero]
  split
  · rfl
  · rfl

/-- The nine concrete grid cells used by the C2 witness. -/
def c2cells : List (Chars × Chars × Chars) :=
  [("a".toList, "1".toList, "+1".toList), ("b".toList, "2".toList, "-2".toList),
   ("c".toList, "3".toList, "3".toList), ("d".toList, "4".toList, "+4".toList),
   ("e".toList, "5".toList, "-5".toList), ("f".toList, "6".toList, "6".toList),
   ("g".toList, "7".toList, "+7".toList), ("h".toList, "8".toList, "-8".toList),
   ("i".toList, "9".toList, "9".toList)]

unseal parseLoop in
/-- C2 counterexample: with ten well-formed `label|value|change` lines the
grid section of the output is not empty — it is rendered from the first
nine — contradicting the claim that any number other than 9 leaves the grid
empty. -/
theorem c2_counterexample :
    (parseSections "MARKET_GRID:\na|1|+1\nb|2|-2\nc|3|3\nd|4|+4\ne|5|-5\nf|6|6\ng|7|+7\nh|8|-8\ni|9|9\nj|10|+10".toList).marketGrid ≠ [] := by
  decide

/-- Closed witness for the amended C2: exactly nine well-formed lines render
the 3-by-3 table of those cells; eight lines leave the grid empty. -/
theorem c2_market_grid_witness :
    (parseSections (joinWith ['\n'] (hdrGrid :: c2cells.map gridLine))).marketGrid =
      tableHtml ((c2cells.take 9).map cellOf) ∧
    (parseSections (joinWith ['\n'] (hdrGrid :: (c2cells.take 8).map gridLine))).marketGrid = [] := by
  constructor
  · rw [c2_market_grid c2cells (by decide)]
    rw [if_neg (by decide)]
  · rw [c2_market_grid (c2cells.take 8) (by decide)]
    rw [if_pos (by decide)]

/- ## Character provenance lemmas (for the bracket-line claim) -/

theorem mem_dropWhile {α : Type} {p : α → Bool} {c : α} :
    ∀ {l : List α}, c ∈ List.dropWhile p l → c ∈ l := by
  intro l
  induction l with
  | nil => intro h; exact h
  | cons e t ih =>
    intro h
    rw [List.dropWhile_cons] at h
    split at h
    · exact List.mem_cons_of_mem _ (ih h)
    · exact h

theorem mem_takeWhile {α : Type} {p : α → Bool} {c : α} :
    ∀ {l : List α}, c ∈ List.takeWhile p l → c ∈ l := by
  intro l
  induction l with
  | nil => intro h; exact h
  | cons e t ih =>
    intro h
    rw [List.takeWhile_cons] at h
    split at h
    · rcases List.mem_cons.mp h with rfl | h'
      · exact List.mem_cons_self _ _
      · exact List.mem_cons_of_mem _ (ih h')
    · exact absurd h (List.not_mem_nil c)

theorem mem_pstrip {c : Char} {s : Chars} (h : c ∈ pstrip s) : c ∈ s := by
  unfold pstrip stripR stripL at h
  rw [List.mem_reverse] at h
  have h2 := mem_dropWhile h
  rw [List.mem_reverse] at h2
  exact mem_dropWhile h2

theorem mem_pySplit {sep : Char} {c : Char} :
    ∀ {s : Chars} {l : Chars}, l ∈ pySplit sep s → c ∈ l → c ∈ s := by
  intro s
  induction s with
  | nil =>
    intro l hl hc
    simp only [pySplit, List.mem_singleton] at hl
    rw [hl] at hc
    exact absurd hc (List.not_mem_nil c)
  | cons e t ih =>
    intro l hl hc
    rw [pySplit] at hl
    split at hl
    · rcases List.mem_cons.mp hl with rfl | hl'
      · exact absurd hc (List.not_mem_nil c)
      · exact List.mem_cons_of_mem _ (ih hl' hc)
    · rename_i hne
      cases hq : pySplit sep t with
      | nil =>
        rw [hq] at hl
        simp only [List.mem_singleton] at hl
        rw [hl] at hc
        rcases List.mem_cons.mp hc with rfl | hc'
        · exact List.mem_cons_self _ _
        · exact absurd hc' (List.not_mem_nil c)
      | cons r rs =>
        rw [hq] at hl
        rcases List.mem_cons.mp hl with rfl | hl'
        · rcases List.mem_cons.mp hc with rfl | hc'
          · exact List.mem_cons_self _ _
          · exact List.mem_cons_of_mem _ (ih (hq ▸ List.mem_cons_self r rs) hc')
        · exact List.mem_cons_of_mem _ (ih (hq ▸ List.mem_cons_of_mem r hl') hc)

theorem mem_joinWith {sep : Chars} {c : Char} :
    ∀ {parts : List Chars}, c ∈ joinWith sep parts → c ∈ sep ∨ ∃ x ∈ parts, c ∈ x := by
  intro parts
  induction parts with
  | nil => intro h; exact absurd h (List.not_mem_nil c)
  | cons x t ih =>
    intro h
    cases t with
    | nil => exact Or.inr ⟨x, List.mem_cons_self _ _, h⟩
    | cons y u =>
      rw [joinWith, List.append_assoc] at h
      rcases List.mem_append.mp h with h' | h'
      · exact Or.inr ⟨x, List.mem_cons_self _ _, h'⟩
      · rcases List.mem_append.mp h' with h'' | h''
        · exact Or.inl h''
        · rcases ih h'' with hs | ⟨z, hz, hcz⟩
          · exact Or.inl hs
          · exact Or.inr ⟨z, List.mem_cons_of_mem _ hz, hcz⟩

theorem mem_replaceAll {pat rep : Chars} {c : Char} :
    ∀ {s : Chars}, c ∈ replaceAll pat rep s → c ∈ rep ∨ c ∈ s := by
  have main : ∀ (n : Nat) (s : Chars), s.length ≤ n →
      c ∈ replaceAll pat rep s → c ∈ rep ∨ c ∈ s := by
    intro n
    induction n with
    | zero =>
      intro s hlen h
      have hnil : s = [] := List.eq_nil_of_length_eq_zero (Nat.le_zero.mp hlen)
      subst hnil
      rw [replaceAll_nil] at h
      exact absurd h (List.not_mem_nil c)
    | succ n ihn =>
      intro s hlen h
      cases s with
      | nil =>
        rw [replaceAll_nil] at h
        exact absurd h (List.not_mem_nil c)
      | cons ch s =>
        by_cases hpre : pat ≠ [] ∧ pat <+: (ch :: s)
        · rw [replaceAll, if_pos hpre] at h
          rcases List.mem_append.mp h with h' | h'
          · exact Or.inl h'
          · have hdl : ((ch :: s).drop pat.length).length ≤ n := by
              have h1 : 1 ≤ pat.length := by
                cases hp : pat with
                | nil => exact absurd hp hpre.1
                | cons a b => simp
              simp only [List.length_drop, List.length_cons]
              simp only [List.length_cons] at hlen
              omega
            rcases ihn _ hdl h' with h'' | h''
            · exact Or.inl h''
            · exact Or.inr (List.drop_subset _ _ h'')
        · rw [replaceAll, if_neg hpre] at h
          rcases List.mem_cons.mp h with rfl | h'
          · exact Or.inr (List.mem_cons_self _ _)
          · rcases ihn s (by simp only [List.length_cons] at hlen; omega) h' with h'' | h''
            · exact Or.inl h''
            · exact Or.inr (List.mem_cons_of_mem _ h'')
  intro s
  exact main s.length s (Nat.le_refl _)

theorem mem_stripEmphasis {c : Char} {s : Chars} (h : c ∈ stripEmphasis s) : c ∈ s := by
  unfold stripEmphasis at h
  rcases mem_replaceAll h with h' | h'
  · exact absurd h' (List.not_mem_nil c)
  · rcases mem_replaceAll h' with h'' | h''
    · exact absurd h'' (List.not_mem_nil c)
    · rcases mem_replaceAll h'' with h3 | h3
      · exact absurd h3 (List.not_mem_nil c)
      · exact h3

/-- Characters of the formatter wrapper frame. -/
def fmtChars : Chars := "<u><strong><u> ()</u></strong></u>".toList

theorem tryTicker_subset {l g1 tick rest : Chars} (h : tryTicker l = some (g1, tick, rest)) :
    (∀ c ∈ g1, c ∈ l) ∧ (∀ c ∈ tick, c ∈ l) ∧ (∀ c ∈ rest, c ∈ l) := by
  match l with
  | [] => simp [tryTicker] at h
  | ch :: s =>
    simp only [tryTicker] at h
    split at h
    · split at h
      · exact absurd h (by simp)
      · split at h
        · rename_i afterParen hdrop
          split at h
          · split at h
            · rename_i rest' hdrop2
              simp only [Option.some.injEq, Prod.mk.injEq] at h
              obtain ⟨hg, ht, hr⟩ := h
              have hafter : ∀ c ∈ afterParen, c ∈ ch :: s := by
                intro c hc
                have : c ∈ '(' :: afterParen := List.mem_cons_of_mem _ hc
                rw [← hdrop] at this
                exact List.mem_cons_of_mem _ (List.drop_subset _ _ this)
              refine ⟨?_, ?_, ?_⟩
              · intro c hc
                rw [← hg] at hc
                rcases List.mem_cons.mp hc with rfl | hc'
                · exact List.mem_cons_self _ _
                · exact List.mem_cons_of_mem _ (mem_takeWhile hc')
              · intro c hc
                rw [← ht] at hc
                exact hafter c (mem_takeWhile hc)
              · intro c hc
                rw [← hr] at hc
                have : c ∈ ')' :: rest' := List.mem_cons_of_mem _ hc
                rw [← hdrop2] at this
                exact hafter c (List.drop_subset _ _ this)
            · exact absurd h (by simp)
          · exact absurd h (by simp)
        · exact absurd h (by simp)
    · exact absurd h (by simp)

theorem mem_subTickers {c : Char} :
    ∀ {s : Chars}, c ∈ subTickers s → c ∈ s ∨ c ∈ fmtChars := by
  intro s
  induction s using subTickers.induct with
  | case1 =>
    intro h
    simp only [subTickers] at h
    exact absurd h (List.not_mem_nil c)
  | case2 ch s g1 tick rest hmatch ih =>
    intro h
    rw [subTickers, hmatch] at h
    obtain ⟨hg1, htick, hrest⟩ := tryTicker_subset hmatch
    have hsubA : ∀ x ∈ "<u><strong><u>".toList, x ∈ fmtChars := by decide
    have hsubB : ∀ x ∈ " (".toList, x ∈ fmtChars := by decide
    have hsubC : ∀ x ∈ ")</u></strong></u>".toList, x ∈ fmtChars := by decide
    rcases List.mem_append.mp h with h' | h'
    · unfold tickerWrap at h'
      rcases List.mem_append.mp h' with h2 | h2
      · rcases List.mem_append.mp h2 with h3 | h3
        · rcases List.mem_append.mp h3 with h4 | h4
          · rcases List.mem_append.mp h4 with h5 | h5
            · exact Or.inr (hsubA c h5)
            · exact Or.inl (hg1 c (mem_pstrip h5))
          · exact Or.inr (hsubB c h4)
        · exact Or.inl (htick c h3)
      · exact Or.inr (hsubC c h2)
    · rcases ih h' with h'' | h''
      · exact Or.inl (hrest c h'')
      · exact Or.inr h''
  | case3 ch s hnone ih =>
    intro h
    rw [subTickers, hnone] at h
    rcases List.mem_cons.mp h with rfl | h'
    · exact Or.inl (List.mem_cons_self _ _)
    · rcases ih h' with h'' | h''
      · exact Or.inl (List.mem_cons_of_mem _ h'')
      · exact Or.inr h''

theorem mem_process_story {c : Char} {t : Chars}
    (h : c ∈ process_story_formatting t) : c ∈ t ∨ c ∈ fmtChars := by
  unfold process_story_formatting at h
  rcases mem_subTickers h with h' | h'
  · exact Or.inl (mem_stripEmphasis h')
  · exact Or.inr h'

/-- Frame characters that the intro/story section builders can introduce
besides characters drawn from the content lines themselves. -/
def sectFrameChars : Chars :=
  introOpen ++ introClose ++ storySep ++ storyHtml [] ++ fmtChars ++ [' ']

/-- The bracket-filtered sections contain no occurrence of the character. -/
def NoCh3 (ch : Char) (s : Sections) : Prop :=
  ch ∉ s.introPar ∧ ch ∉ s.coreStories ∧ ch ∉ s.horizonStories

theorem introLineOk_not_bracket {line : Chars} (h : introLineOk line = true) :
    ¬ ['['].isPrefixOf line = true := by
  simp only [introLineOk, Bool.and_eq_true, Bool.not_eq_true'] at h
  rw [h.1.2]
  simp

theorem storyLineOk_not_bracket {line : Chars} (h : storyLineOk line = true) :
    ¬ ['['].isPrefixOf line = true := by
  simp only [storyLineOk, Bool.and_eq_true, Bool.not_eq_true'] at h
  rw [h.2]
  simp

theorem introCont_not_bracket {l : Chars} (h : introCont l = true) :
    ¬ ['['].isPrefixOf (pstrip l) = true :=
  introLineOk_not_bracket h

theorem storyCont_not_bracket {l : Chars} (h : storyCont l = true) :
    ¬ ['['].isPrefixOf (pstrip l) = true := by
  simp only [storyCont, Bool.and_eq_true, Bool.not_eq_true'] at h
  rw [h.1.1.2]
  simp

theorem ch_not_in_joinSp {ch : Char} (hsp : ch ≠ ' ')
    {parts : List Chars} (hp : ∀ x ∈ parts, ch ∉ x) : ch ∉ joinSp parts := by
  intro hm
  rcases mem_joinWith hm with h | ⟨x, hx, hcx⟩
  · rcases List.mem_cons.mp h with rfl | h'
    · exact hsp rfl
    · exact absurd h' (List.not_mem_nil ch)
  · exact hp x hx hcx

theorem mem_takeWhile_prop {α : Type} {p : α → Bool} {j : α} :
    ∀ {l : List α}, j ∈ List.takeWhile p l → p j = true := by
  intro l
  induction l with
  | nil => intro h; exact absurd h (List.not_mem_nil j)
  | cons e t ih =>
    intro h
    rw [List.takeWhile_cons] at h
    split at h
    · rename_i hpe
      rcases List.mem_cons.mp h with rfl | h'
      · exact hpe
      · exact ih h'
    · exact absurd h (List.not_mem_nil j)

theorem parseLoop_bracket_invariant (ch : Char) (hfr : ch ∉ sectFrameChars) :
    ∀ (lines : List Chars) (st : PState),
      (∀ l ∈ lines, ch ∈ pstrip l → ['['].isPrefixOf (pstrip l) = true) →
      NoCh3 ch st.sects → NoCh3 ch (parseLoop lines st) := by
  have hmem : ch ∉ introOpen ∧ ch ∉ introClose ∧ ch ∉ storySep ∧ ch ∉ storyHtml [] ∧
      ch ∉ fmtChars ∧ ch ≠ ' ' := by
    unfold sectFrameChars at hfr
    simp only [List.mem_append, not_or, List.mem_singleton] at hfr
    obtain ⟨⟨⟨⟨⟨a1, a2⟩, a3⟩, a4⟩, a5⟩, a6⟩ := hfr
    exact ⟨a1, a2, a3, a4, a5, a6⟩
  obtain ⟨hIOp, hIC, hSS, hSH0, hFM, hSP⟩ := hmem
  have hSH : ∀ f : Chars, ch ∉ f → ch ∉ storyHtml f := by
    intro f hf hm
    unfold storyHtml at hm hSH0
    rcases List.mem_append.mp hm with h' | h'
    · rcases List.mem_append.mp h' with h'' | h''
      · exact hSH0 (List.mem_append_left _ (by simpa using h''))
      · exact hf h''
    · exact hSH0 (List.mem_append_right _ h')
  have hstory : ∀ t : Chars, ch ∉ t → ch ∉ storyHtml (process_story_formatting t) := by
    intro t ht
    apply hSH
    intro hm
    rcases mem_process_story hm with h' | h'
    · exact ht h'
    · exact hFM h'
  have main : ∀ (n : Nat) (lines : List Chars) (st : PState), lines.length ≤ n →
      (∀ l ∈ lines, ch ∈ pstrip l → ['['].isPrefixOf (pstrip l) = true) →
      NoCh3 ch st.sects → NoCh3 ch (parseLoop lines st) := by
    intro n
    induction n with
    | zero =>
      intro lines st hlen hlines hst
      have hnil : lines = [] := List.eq_nil_of_length_eq_zero (Nat.le_zero.mp hlen)
      subst hnil
      rw [parseLoop_nil]
      exact hst
    | succ n ihn =>
      intro lines st hlen hlines hst
      cases lines with
      | nil =>
        rw [parseLoop_nil]
        exact hst
      | cons l ls =>
        have hlsn : ls.length ≤ n := by
          simp only [List.length_cons] at hlen
          omega
        have hlines' : ∀ j ∈ ls, ch ∈ pstrip j → ['['].isPrefixOf (pstrip j) = true :=
          fun j hj => hlines j (List.mem_cons_of_mem _ hj)
        have hdroplen : ∀ (p : Chars → Bool), (ls.dropWhile p).length ≤ n :=
          fun p => Nat.le_trans (dropWhile_len_le p ls) hlsn
        have hdroplines : ∀ (p : Chars → Bool),
            ∀ j ∈ ls.dropWhile p, ch ∈ pstrip j → ['['].isPrefixOf (pstrip j) = true :=
          fun p j hj => hlines' j (mem_dropWhile hj)
        by_cases h1 : pstrip l = hdrIntro
        · rw [parseLoop.eq_def]
          dsimp only
          rw [if_pos h1]
          exact ihn ls _ hlsn hlines' hst
        · by_cases h2 : pstrip l = hdrGrid
          · rw [parseLoop.eq_def]
            dsimp only
            rw [if_neg h1, if_pos h2]
            exact ihn ls _ hlsn hlines' hst
          · by_cases h3 : pstrip l = hdrCore
            · rw [parseLoop.eq_def]
              dsimp only
              rw [if_neg h1, if_neg h2, if_pos h3]
              exact ihn ls _ hlsn hlines' hst
            · by_cases h4 : pstrip l = hdrHorizon
              · rw [parseLoop.eq_def]
                dsimp only
                rw [if_neg h1, if_neg h2, if_neg h3, if_pos h4]
                exact ihn ls _ hlsn hlines' hst
              · by_cases h5 : pstrip l = hdrGame
                · rw [parseLoop.eq_def]
                  dsimp only
                  rw [if_neg h1, if_neg h2, if_neg h3, if_neg h4, if_pos h5]
                  exact ihn ls _ hlsn hlines' hst
                · rw [parseLoop.eq_def]
                  dsimp only
                  rw [if_neg h1, if_neg h2, if_neg h3, if_neg h4, if_neg h5]
                  cases hcur : st.cur with
                  | none => exact ihn ls _ hlsn hlines' hst
                  | some sc =>
                    cases sc with
                    | game => exact ihn ls _ hlsn hlines' hst
                    | intro =>
                      dsimp only
                      by_cases hok : introLineOk (pstrip l) = true
                      · rw [if_pos hok]
                        have htext : ch ∉ joinSp (pstrip l :: (ls.takeWhile introCont).map pstrip) := by
                          apply ch_not_in_joinSp hSP
                          intro x hx
                          rcases List.mem_cons.mp hx with rfl | hx'
                          · intro hm
                            exact introLineOk_not_bracket hok
                              (hlines l (List.mem_cons_self _ _) hm)
                          · rw [List.mem_map] at hx'
                            obtain ⟨j, hj, rfl⟩ := hx'
                            intro hm
                            exact introCont_not_bracket (mem_takeWhile_prop hj)
                              (hlines' j (mem_takeWhile hj) hm)
                        by_cases hne : joinSp (pstrip l :: (ls.takeWhile introCont).map pstrip) ≠ []
                        · rw [if_pos hne]
                          apply ihn _ _ (hdroplen introCont) (hdroplines introCont)
                          refine ⟨?_, hst.2.1, hst.2.2⟩
                          intro hm
                          rcases List.mem_append.mp hm with h' | h'
                          · rcases List.mem_append.mp h' with h'' | h''
                            · rcases List.mem_append.mp h'' with h3' | h3'
                              · exact hst.1 h3'
                              · exact hIOp h3'
                            · exact htext h''
                          · exact hIC h'
                        · rw [if_neg hne]
                          exact ihn _ _ (hdroplen introCont) (hdroplines introCont) hst
                      · rw [if_neg hok]
                        exact ihn ls _ hlsn hlines' hst
                    | grid =>
                      dsimp only
                      apply ihn ls _ hlsn hlines'
                      unfold NoCh3
                      repeat' split
                      all_goals exact ⟨hst.1, hst.2.1, hst.2.2⟩
                    | core =>
                      dsimp only
                      by_cases hok : storyLineOk (pstrip l) = true
                      · rw [if_pos hok]
                        have htext : ch ∉ joinSp (pstrip l :: (ls.takeWhile storyCont).map pstrip) := by
                          apply ch_not_in_joinSp hSP
                          intro x hx
                          rcases List.mem_cons.mp hx with rfl | hx'
                          · intro hm
                            exact storyLineOk_not_bracket hok
                              (hlines l (List.mem_cons_self _ _) hm)
                          · rw [List.mem_map] at hx'
                            obtain ⟨j, hj, rfl⟩ := hx'
                            intro hm
                            exact storyCont_not_bracket (mem_takeWhile_prop hj)
                              (hlines' j (mem_takeWhile hj) hm)
                        split
                        · apply ihn _ _ (hdroplen storyCont) (hdroplines storyCont)
                          refine ⟨hst.1, ?_, hst.2.2⟩
                          intro hm
                          rcases List.mem_append.mp hm with h' | h'
                          · rcases List.mem_append.mp h' with h'' | h''
                            · exact hst.2.1 h''
                            · exact hSS h''
                          · exact hstory _ htext h'
                        · exact ihn _ _ (hdroplen storyCont) (hdroplines storyCont) hst
                      · rw [if_neg hok]
                        exact ihn ls _ hlsn hlines' hst
                    | horizon =>
                      dsimp only
                      by_cases hok : storyLineOk (pstrip l) = true
                      · rw [if_pos hok]
                        have htext : ch ∉ joinSp (pstrip l :: (ls.takeWhile storyCont).map pstrip) := by
                          apply ch_not_in_joinSp hSP
                          intro x hx
                          rcases List.mem_cons.mp hx with rfl | hx'
                          · intro hm
                            exact storyLineOk_not_bracket hok
                              (hlines l (List.mem_cons_self _ _) hm)
                          · rw [List.mem_map] at hx'
                            obtain ⟨j, hj, rfl⟩ := hx'
                            intro hm
                            exact storyCont_not_bracket (mem_takeWhile_prop hj)
                              (hlines' j (mem_takeWhile hj) hm)
                        split
                        · apply ihn _ _ (hdroplen storyCont) (hdroplines storyCont)
                          refine ⟨hst.1, hst.2.1, ?_⟩
                          intro hm
                          rcases List.mem_append.mp hm with h' | h'
                          · rcases List.mem_append.mp h' with h'' | h''
                            · exact hst.2.2 h''
                            · exact hSS h''
                          · exact hstory _ htext h'
                        · exact ihn _ _ (hdroplen storyCont) (hdroplines storyCont) hst
                      · rw [if_neg hok]
                        exact ihn ls _ hlsn hlines' hst
  intro lines st hlines hst
  exact main lines.length lines st (Nat.le_refl _) hlines hst

/-- C4 amended: a character that occurs only inside bracket-prefixed lines
(and is none of the fixed frame characters the builders insert) never
reaches the INTRO_PARAGRAPH, CORE_STORIES or HORIZON_SCAN_STORIES sections:
bracket-prefixed lines never contribute to these three sections.  The
MARKET_GRID branch has no bracket filter, so this guarantee does not extend
to the grid (see the counterexample). -/
theorem c4_bracket_never_rendered (ch : Char) (content : Chars)
    (hfr : ch ∉ sectFrameChars)
    (hbr : ∀ l ∈ pySplit '\n' content, ch ∈ pstrip l → ['['].isPrefixOf (pstrip l) = true) :
    ch ∉ (parseSections content).introPar ∧ ch ∉ (parseSections content).coreStories ∧
      ch ∉ (parseSections content).horizonStories := by
  unfold parseSections
  exact parseLoop_bracket_invariant ch hfr _ _ hbr
    ⟨List.not_mem_nil ch, List.not_mem_nil ch, List.not_mem_nil ch⟩

/-- The market-grid input used to refute the bracket claim: nine
bracket-prefixed pipe lines, the only lines in which `Z` occurs. -/
def c4content : Chars :=
  "MARKET_GRID:\n[Z]|1|+1\n[Z]|1|+1\n[Z]|1|+1\n[Z]|1|+1\n[Z]|1|+1\n[Z]|1|+1\n[Z]|1|+1\n[Z]|1|+1\n[Z]|1|+1".toList

unseal parseLoop in
/-- C4 counterexample: the character `Z` occurs only in lines whose stripped
form starts with `[`, yet it appears in the rendered MARKET_GRID section —
a bracketed instructional line contributed to a rendered output section,
because the market-grid branch has no bracket filter (app.py 796-811). -/
theorem c4_counterexample :
    (∀ l ∈ pySplit '\n' c4content, 'Z' ∈ pstrip l → ['['].isPrefixOf (pstrip l) = true) ∧
    'Z' ∈ (parseSections c4content).marketGrid := by
  constructor
  · decide
  · decide

/-- The content used by the C4 witness: `Z` occurs only in one bracketed
instructional line, between intro text and a core story. -/
def c4wcontent : Chars :=
  "INTRO_PARAGRAPH:\nHello there\n\n[Z instruction to skip]\nMore intro text\nCORE_STORIES:\nA story long enough to be kept by the fifty char filter\n[Z another instruction]".toList

unseal parseLoop replaceAll subTickers in
/-- Closed witness for the amended C4: with `Z` confined to bracket-prefixed
lines, none of the three bracket-filtered sections contains it. -/
theorem c4_bracket_witness :
    'Z' ∉ sectFrameChars ∧
    (∀ l ∈ pySplit '\n' c4wcontent, 'Z' ∈ pstrip l → ['['].isPrefixOf (pstrip l) = true) ∧
    ('Z' ∉ (parseSections c4wcontent).introPar ∧ 'Z' ∉ (parseSections c4wcontent).coreStories ∧
      'Z' ∉ (parseSections c4wcontent).horizonStories) :=
  ⟨by decide, by decide, c4_bracket_never_rendered 'Z' c4wcontent (by decide) (by decide)⟩

/- ## Brace-free propagation (for the placeholder-token claim) -/

theorem mem_getD {c : Char} : ∀ {l : List Chars} {i : Nat},
    c ∈ l.getD i [] → ∃ x ∈ l, c ∈ x := by
  intro l
  induction l with
  | nil =>
    intro i h
    simp [List.getD] at h
  | cons x t ih =>
    intro i h
    cases i with
    | zero => exact ⟨x, List.mem_cons_self _ _, by simpa using h⟩
    | succ j =>
      obtain ⟨y, hy, hcy⟩ := ih (by simpa using h)
      exact ⟨y, List.mem_cons_of_mem _ hy, hcy⟩

/-- Frame characters of one grid cell (markup plus both change classes). -/
def cellFrameChars : Chars :=
  ("\n            <td>\n                <span class=\"market-label\"></span>\n                <span class=\"market-value\"></span>\n                <span class=\"market-change \"></span>\n            </td>" ++ "change-positive" ++ "change-negative").toList

theorem mem_cellHtml {c : Char} {a b v : Chars} (h : c ∈ cellHtml a b v) :
    c ∈ a ∨ c ∈ b ∨ c ∈ v ∨ c ∈ cellFrameChars := by
  have hs1 : ∀ x ∈ "\n            <td>\n                <span class=\"market-label\">".toList,
      x ∈ cellFrameChars := by decide
  have hs2 : ∀ x ∈ "</span>\n                <span class=\"market-value\">".toList,
      x ∈ cellFrameChars := by decide
  have hs3 : ∀ x ∈ "</span>\n                <span class=\"market-change ".toList,
      x ∈ cellFrameChars := by decide
  have hs4 : ∀ x ∈ "\">".toList, x ∈ cellFrameChars := by decide
  have hs5 : ∀ x ∈ "</span>\n            </td>".toList, x ∈ cellFrameChars := by decide
  have hsp : ∀ x ∈ "change-positive".toList, x ∈ cellFrameChars := by decide
  have hsn : ∀ x ∈ "change-negative".toList, x ∈ cellFrameChars := by decide
  unfold cellHtml at h
  rcases List.mem_append.mp h with h1 | h1
  swap
  · exact Or.inr (Or.inr (Or.inr (hs5 c h1)))
  rcases List.mem_append.mp h1 with h2 | h2
  swap
  · exact Or.inr (Or.inr (Or.inl h2))
  rcases List.mem_append.mp h2 with h3 | h3
  swap
  · exact Or.inr (Or.inr (Or.inr (hs4 c h3)))
  rcases List.mem_append.mp h3 with h4 | h4
  swap
  · refine Or.inr (Or.inr (Or.inr ?_))
    split at h4
    · exact hsp c h4
    · split at h4
      · exact hsn c h4
      · exact absurd h4 (List.not_mem_nil c)
  rcases List.mem_append.mp h4 with h5 | h5
  swap
  · exact Or.inr (Or.inr (Or.inr (hs3 c h5)))
  rcases List.mem_append.mp h5 with h6 | h6
  swap
  · exact Or.inr (Or.inl h6)
  rcases List.mem_append.mp h6 with h7 | h7
  swap
  · exact Or.inr (Or.inr (Or.inr (hs2 c h7)))
  rcases List.mem_append.mp h7 with h8 | h8
  · exact Or.inr (Or.inr (Or.inr (hs1 c h8)))
  · exact Or.inl h8

/-- Frame characters of the grid table: the cell frame plus the row markup. -/
def gridFrameChars : Chars :=
  cellFrameChars ++ "</tr>\n            <tr>".toList

theorem mem_tableHtml {c : Char} {buf : List Chars} (h : c ∈ tableHtml buf) :
    (∃ b ∈ buf, c ∈ b) ∨ c ∈ gridFrameChars := by
  have hs1 : ∀ x ∈ "<tr>".toList, x ∈ gridFrameChars := by decide
  have hs2 : ∀ x ∈ "</tr>\n            <tr>".toList, x ∈ gridFrameChars := by decide
  have hs3 : ∀ x ∈ "</tr>".toList, x ∈ gridFrameChars := by decide
  have hfl : ∀ (l : List Chars), c ∈ l.flatten → (∀ x ∈ l, x ∈ buf) →
      ∃ b ∈ buf, c ∈ b := by
    intro l hc hsub
    obtain ⟨x, hx, hcx⟩ := List.mem_flatten.mp hc
    exact ⟨x, hsub x hx, hcx⟩
  unfold tableHtml at h
  rcases List.mem_append.mp h with h1 | h1
  swap
  · exact Or.inr (hs3 c h1)
  rcases List.mem_append.mp h1 with h2 | h2
  swap
  · exact Or.inl (hfl _ h2 (fun x hx => List.drop_subset 6 buf (List.take_subset 3 _ hx)))
  rcases List.mem_append.mp h2 with h3 | h3
  swap
  · exact Or.inr (hs2 c h3)
  rcases List.mem_append.mp h3 with h4 | h4
  swap
  · exact Or.inl (hfl _ h4 (fun x hx => List.drop_subset 3 buf (List.take_subset 3 _ hx)))
  rcases List.mem_append.mp h4 with h5 | h5
  swap
  · exact Or.inr (hs2 c h5)
  rcases List.mem_append.mp h5 with h6 | h6
  · exact Or.inr (hs1 c h6)
  · exact Or.inl (hfl _ h6 (fun x hx => List.take_subset 3 buf hx))

/-- All four rendered sections are free of the character. -/
def NoCh4 (ch : Char) (s : Sections) : Prop :=
  NoCh3 ch s ∧ ch ∉ s.marketGrid

/-- If the character occurs in no input line and is none of the frame
characters inserted by the section builders, then it reaches none of the
four rendered sections (and no buffered cell). -/
theorem parseLoop_brace_invariant (ch : Char)
    (hfr : ch ∉ sectFrameChars) (hgr : ch ∉ gridFrameChars) :
    ∀ (lines : List Chars) (st : PState),
      (∀ l ∈ lines, ch ∉ l) →
      NoCh4 ch st.sects → (∀ b ∈ st.buffer, ch ∉ b) →
      NoCh4 ch (parseLoop lines st) := by
  have hmem : ch ∉ introOpen ∧ ch ∉ introClose ∧ ch ∉ storySep ∧ ch ∉ storyHtml [] ∧
      ch ∉ fmtChars ∧ ch ≠ ' ' := by
    unfold sectFrameChars at hfr
    simp only [List.mem_append, not_or, List.mem_singleton] at hfr
    obtain ⟨⟨⟨⟨⟨a1, a2⟩, a3⟩, a4⟩, a5⟩, a6⟩ := hfr
    exact ⟨a1, a2, a3, a4, a5, a6⟩
  obtain ⟨hIOp, hIC, hSS, hSH0, hFM, hSP⟩ := hmem
  have hCF : ch ∉ cellFrameChars := fun hm => hgr (List.mem_append_left _ hm)
  have hSH : ∀ f : Chars, ch ∉ f → ch ∉ storyHtml f := by
    intro f hf hm
    unfold storyHtml at hm hSH0
    rcases List.mem_append.mp hm with h' | h'
    · rcases List.mem_append.mp h' with h'' | h''
      · exact hSH0 (List.mem_append_left _ (by simpa using h''))
      · exact hf h''
    · exact hSH0 (List.mem_append_right _ h')
  have hstory : ∀ t : Chars, ch ∉ t → ch ∉ storyHtml (process_story_formatting t) := by
    intro t ht
    apply hSH
    intro hm
    rcases mem_process_story hm with h' | h'
    · exact ht h'
    · exact hFM h'
  have main : ∀ (n : Nat) (lines : List Chars) (st : PState), lines.length ≤ n →
      (∀ l ∈ lines, ch ∉ l) →
      NoCh4 ch st.sects → (∀ b ∈ st.buffer, ch ∉ b) →
      NoCh4 ch (parseLoop lines st) := by
    intro n
    induction n with
    | zero =>
      intro lines st hlen hlines hst hbuf
      have hnil : lines = [] := List.eq_nil_of_length_eq_zero (Nat.le_zero.mp hlen)
      subst hnil
      rw [parseLoop_nil]
      exact hst
    | succ n ihn =>
      intro lines st hlen hlines hst hbuf
      cases lines with
      | nil =>
        rw [parseLoop_nil]
        exact hst
      | cons l ls =>
        have hlsn : ls.length ≤ n := by
          simp only [List.length_cons] at hlen
          omega
        have hlines' : ∀ j ∈ ls, ch ∉ j :=
          fun j hj => hlines j (List.mem_cons_of_mem _ hj)
        have hline : ch ∉ pstrip l :=
          fun hm => hlines l (List.mem_cons_self _ _) (mem_pstrip hm)
        have hdroplen : ∀ (p : Chars → Bool), (ls.dropWhile p).length ≤ n :=
          fun p => Nat.le_trans (dropWhile_len_le p ls) hlsn
        have hdroplines : ∀ (p : Chars → Bool), ∀ j ∈ ls.dropWhile p, ch ∉ j :=
          fun p j hj => hlines' j (mem_dropWhile hj)
        have hbufnil : ∀ b ∈ ([] : List Chars), ch ∉ b :=
          fun b hb => absurd hb (List.not_mem_nil b)
        by_cases h1 : pstrip l = hdrIntro
        · rw [parseLoop.eq_def]
          dsimp only
          rw [if_pos h1]
          exact ihn ls _ hlsn hlines' hst hbufnil
        · by_cases h2 : pstrip l = hdrGrid
          · rw [parseLoop.eq_def]
            dsimp only
            rw [if_neg h1, if_pos h2]
            exact ihn ls _ hlsn hlines' hst hbufnil
          · by_cases h3 : pstrip l = hdrCore
            · rw [parseLoop.eq_def]
              dsimp only
              rw [if_neg h1, if_neg h2, if_pos h3]
              exact ihn ls _ hlsn hlines' hst hbufnil
            · by_cases h4 : pstrip l = hdrHorizon
              · rw [parseLoop.eq_def]
                dsimp only
                rw [if_neg h1, if_neg h2, if_neg h3, if_pos h4]
                exact ihn ls _ hlsn hlines' hst hbufnil
              · by_cases h5 : pstrip l = hdrGame
                · rw [parseLoop.eq_def]
                  dsimp only
                  rw [if_neg h1, if_neg h2, if_neg h3, if_neg h4, if_pos h5]
                  exact ihn ls _ hlsn hlines' hst hbuf
                · rw [parseLoop.eq_def]
                  dsimp only
                  rw [if_neg h1, if_neg h2, if_neg h3, if_neg h4, if_neg h5]
                  cases hcur : st.cur with
                  | none => exact ihn ls _ hlsn hlines' hst hbuf
                  | some sc =>
                    cases sc with
                    | game => exact ihn ls _ hlsn hlines' hst hbuf
                    | intro =>
                      dsimp only
                      by_cases hok : introLineOk (pstrip l) = true
                      · rw [if_pos hok]
                        have htext : ch ∉ joinSp (pstrip l :: (ls.takeWhile introCont).map pstrip) := by
                          apply ch_not_in_joinSp hSP
                          intro x hx
                          rcases List.mem_cons.mp hx with rfl | hx'
                          · exact hline
                          · rw [List.mem_map] at hx'
                            obtain ⟨j, hj, rfl⟩ := hx'
                            exact fun hm => hlines' j (mem_takeWhile hj) (mem_pstrip hm)
                        by_cases hne : joinSp (pstrip l :: (ls.takeWhile introCont).map pstrip) ≠ []
                        · rw [if_pos hne]
                          refine ihn _ _ (hdroplen introCont) (hdroplines introCont) ?_ (fun b hb => hbuf b hb)
                          refine ⟨⟨?_, hst.1.2.1, hst.1.2.2⟩, hst.2⟩
                          intro hm
                          rcases List.mem_append.mp hm with h' | h'
                          · rcases List.mem_append.mp h' with h'' | h''
                            · rcases List.mem_append.mp h'' with h3' | h3'
                              · exact hst.1.1 h3'
                              · exact hIOp h3'
                            · exact htext h''
                          · exact hIC h'
                        · rw [if_neg hne]
                          exact ihn _ _ (hdroplen introCont) (hdroplines introCont) hst hbuf
                      · rw [if_neg hok]
                        exact ihn ls _ hlsn hlines' hst hbuf
                    | grid =>
                      dsimp only
                      by_cases hp : '|' ∈ pstrip l
                      · rw [if_pos hp]
                        by_cases hp3 : 3 ≤ (pySplit '|' (pstrip l)).length
                        · rw [if_pos hp3]
                          have hpart : ∀ i : Nat,
                              ch ∉ pstrip ((pySplit '|' (pstrip l)).getD i []) := by
                            intro i hm
                            obtain ⟨x, hx, hcx⟩ := mem_getD (mem_pstrip hm)
                            exact hline (mem_pySplit hx hcx)
                          have hcell : ch ∉ cellHtml (pstrip ((pySplit '|' (pstrip l)).getD 0 []))
                              (pstrip ((pySplit '|' (pstrip l)).getD 1 []))
                              (pstrip ((pySplit '|' (pstrip l)).getD 2 [])) := by
                            intro hm
                            rcases mem_cellHtml hm with h' | h' | h' | h'
                            · exact hpart 0 h'
                            · exact hpart 1 h'
                            · exact hpart 2 h'
                            · exact hCF h'
                          have hbuf' : ∀ b ∈ st.buffer ++
                              [cellHtml (pstrip ((pySplit '|' (pstrip l)).getD 0 []))
                                (pstrip ((pySplit '|' (pstrip l)).getD 1 []))
                                (pstrip ((pySplit '|' (pstrip l)).getD 2 []))], ch ∉ b := by
                            intro b hb
                            rcases List.mem_append.mp hb with h' | h'
                            · exact hbuf b h'
                            · rcases List.mem_singleton.mp h' with rfl
                              exact hcell
                          dsimp only
                          split
                          · refine ihn ls _ hlsn hlines' ?_ (fun b hb => hbufnil b hb)
                            refine ⟨⟨hst.1.1, hst.1.2.1, hst.1.2.2⟩, ?_⟩
                            intro hm
                            rcases mem_tableHtml hm with ⟨b, hb, hcb⟩ | h'
                            · exact hbuf' b hb hcb
                            · exact hgr h'
                          · exact ihn ls _ hlsn hlines' hst hbuf'
                        · rw [if_neg hp3]
                          split
                          · refine ihn ls _ hlsn hlines' ?_ (fun b hb => hbufnil b hb)
                            refine ⟨⟨hst.1.1, hst.1.2.1, hst.1.2.2⟩, ?_⟩
                            intro hm
                            rcases mem_tableHtml hm with ⟨b, hb, hcb⟩ | h'
                            · exact hbuf b hb hcb
                            · exact hgr h'
                          · exact ihn ls _ hlsn hlines' hst hbuf
                      · rw [if_neg hp]
                        split
                        · refine ihn ls _ hlsn hlines' ?_ (fun b hb => hbufnil b hb)
                          refine ⟨⟨hst.1.1, hst.1.2.1, hst.1.2.2⟩, ?_⟩
                          intro hm
                          rcases mem_tableHtml hm with ⟨b, hb, hcb⟩ | h'
                          · exact hbuf b hb hcb
                          · exact hgr h'
                        · exact ihn ls _ hlsn hlines' hst hbuf
                    | core =>
                      dsimp only
                      by_cases hok : storyLineOk (pstrip l) = true
                      · rw [if_pos hok]
                        have htext : ch ∉ joinSp (pstrip l :: (ls.takeWhile storyCont).map pstrip) := by
                          apply ch_not_in_joinSp hSP
                          intro x hx
                          rcases List.mem_cons.mp hx with rfl | hx'
                          · exact hline
                          · rw [List.mem_map] at hx'
                            obtain ⟨j, hj, rfl⟩ := hx'
                            exact fun hm => hlines' j (mem_takeWhile hj) (mem_pstrip hm)
                        split
                        · refine ihn _ _ (hdroplen storyCont) (hdroplines storyCont) ?_ (fun b hb => hbuf b hb)
                          refine ⟨⟨hst.1.1, ?_, hst.1.2.2⟩, hst.2⟩
                          intro hm
                          rcases List.mem_append.mp hm with h' | h'
                          · rcases List.mem_append.mp h' with h'' | h''
                            · exact hst.1.2.1 h''
                            · exact hSS h''
                          · exact hstory _ htext h'
                        · exact ihn _ _ (hdroplen storyCont) (hdroplines storyCont) hst hbuf
                      · rw [if_neg hok]
                        exact ihn ls _ hlsn hlines' hst hbuf
                    | horizon =>
                      dsimp only
                      by_cases hok : storyLineOk (pstrip l) = true
                      · rw [if_pos hok]
                        have htext : ch ∉ joinSp (pstrip l :: (ls.takeWhile storyCont).map pstrip) := by
                          apply ch_not_in_joinSp hSP
                          intro x hx
                          rcases List.mem_cons.mp hx with rfl | hx'
                          · exact hline
                          · rw [List.mem_map] at hx'
                            obtain ⟨j, hj, rfl⟩ := hx'
                            exact fun hm => hlines' j (mem_takeWhile hj) (mem_pstrip hm)
                        split
                        · refine ihn _ _ (hdroplen storyCont) (hdroplines storyCont) ?_ (fun b hb => hbuf b hb)
                          refine ⟨⟨hst.1.1, hst.1.2.1, ?_⟩, hst.2⟩
                          intro hm
                          rcases List.mem_append.mp hm with h' | h'
                          · rcases List.mem_append.mp h' with h'' | h''
                            · exact hst.1.2.2 h''
                            · exact hSS h''
                          · exact hstory _ htext h'
                        · exact ihn _ _ (hdroplen storyCont) (hdroplines storyCont) hst hbuf
                      · rw [if_neg hok]
                        exact ihn ls _ hlsn hlines' hst hbuf
  intro lines st hlines hst hbuf
  exact main lines.length lines st (Nat.le_refl _) hlines hst hbuf

theorem occurs_append_left (pat : Chars) {a : Chars} (b : Chars) (h : Occurs pat a) :
    Occurs pat (a ++ b) := by
  obtain ⟨p, hp⟩ := h
  refine ⟨p, ?_⟩
  rw [List.drop_append_eq_append_drop]
  exact hp.trans (List.prefix_append _ _)

/-- A token that is block-safe for every template segment, for the trivia
block and for every substituted value is block-safe for the rendered doc. -/
theorem renderedDoc_safe {tok : Chars} {today vI vG vC vH : Chars}
    (h0 : SafePre tok tmplSeg0) (h1 : SafePre tok tmplSeg1) (h2 : SafePre tok tmplSeg2)
    (h3 : SafePre tok tmplSeg3) (h4 : SafePre tok tmplSeg4) (h5 : SafePre tok tmplSeg5)
    (h6 : SafePre tok tmplSeg6) (htr : SafePre tok triviaSection)
    (hv : SafePre tok today) (hI : SafePre tok vI) (hG : SafePre tok vG)
    (hC : SafePre tok vC) (hH : SafePre tok vH) :
    SafePre tok (renderedDoc today vI vG vC vH) := by
  unfold renderedDoc
  exact safePre_append h0 (safePre_append hv (safePre_append h1 (safePre_append hI
    (safePre_append h2 (safePre_append hG (safePre_append h3 (safePre_append hC
    (safePre_append h4 (safePre_append hH (safePre_append h5 (safePre_append htr h6)))))))))))

/-- The six placeholder tokens of the shell template, in substitution order
(app.py 851-854). -/
def placeholderTokens : List Chars :=
  [tokDATE, tokINTRO, tokGRID, tokCORE, tokHORIZON, tokTRIVIA]

/-- C7 amended: placeholder elimination holds whenever the input injects no
token of its own: if the brace character occurs neither in the rendered date
nor in the content, `parse_content_to_html` succeeds on any non-empty
content and the resulting HTML contains zero occurrences of any of the six
placeholder tokens (each is replaced, by the empty string when its section
is absent).  Without that proviso the claim fails: a section value built
from the input can reintroduce a token substituted earlier (see the
counterexample). -/
theorem c7_no_tokens (today content : Chars)
    (hd : lbrace ∉ today) (hc : lbrace ∉ content) (hne : content ≠ []) :
    ∃ html, parse_content_to_html today (some content) = some html ∧
      ∀ tok ∈ placeholderTokens, ¬ Occurs tok html := by
  have hlines : ∀ l ∈ pySplit '\n' content, lbrace ∉ l :=
    fun l hl hm => hc (mem_pySplit hl hm)
  have hinit : NoCh4 lbrace initPState.sects :=
    ⟨⟨List.not_mem_nil _, List.not_mem_nil _, List.not_mem_nil _⟩, List.not_mem_nil _⟩
  have hbuf0 : ∀ b ∈ initPState.buffer, lbrace ∉ b :=
    fun b hb => absurd hb (List.not_mem_nil b)
  have hinv := parseLoop_brace_invariant lbrace (by decide) (by decide)
    (pySplit '\n' content) initPState hlines hinit hbuf0
  obtain ⟨⟨hI, hC, hH⟩, hG⟩ := hinv
  have hparse : parse_content_to_html today (some content) =
      some (fillTemplate today (parseSections content)) := by
    show (if content = [] then (none : Option Chars)
      else some (fillTemplate today (parseSections content))) =
      some (fillTemplate today (parseSections content))
    rw [if_neg hne]
  refine ⟨fillTemplate today (parseSections content), hparse, ?_⟩
  have hshape : fillTemplate today (parseSections content) =
      renderedDoc today (parseSections content).introPar (parseSections content).marketGrid
        (parseSections content).coreStories (parseSections content).horizonStories :=
    fillTemplate_shape today _ _ _ _ hd hI hG hC hH
  intro tok htok
  rw [hshape]
  simp only [placeholderTokens, List.mem_cons, List.not_mem_nil, or_false] at htok
  rcases htok with rfl | rfl | rfl | rfl | rfl | rfl
  · exact safePre_not_occurs (by decide)
      (renderedDoc_safe safe_DATE_tmplSeg0 safe_DATE_tmplSeg1 safe_DATE_tmplSeg2
        safe_DATE_tmplSeg3 safe_DATE_tmplSeg4 safe_DATE_tmplSeg5 safe_DATE_tmplSeg6
        safe_DATE_triviaSection (safe_DATE_val hd) (safe_DATE_val hI) (safe_DATE_val hG)
        (safe_DATE_val hC) (safe_DATE_val hH))
  · exact safePre_not_occurs (by decide)
      (renderedDoc_safe safe_INTRO_tmplSeg0 safe_INTRO_tmplSeg1 safe_INTRO_tmplSeg2
        safe_INTRO_tmplSeg3 safe_INTRO_tmplSeg4 safe_INTRO_tmplSeg5 safe_INTRO_tmplSeg6
        safe_INTRO_triviaSection (safe_INTRO_val hd) (safe_INTRO_val hI) (safe_INTRO_val hG)
        (safe_INTRO_val hC) (safe_INTRO_val hH))
  · exact safePre_not_occurs (by decide)
      (renderedDoc_safe safe_GRID_tmplSeg0 safe_GRID_tmplSeg1 safe_GRID_tmplSeg2
        safe_GRID_tmplSeg3 safe_GRID_tmplSeg4 safe_GRID_tmplSeg5 safe_GRID_tmplSeg6
        safe_GRID_triviaSection (safe_GRID_val hd) (safe_GRID_val hI) (safe_GRID_val hG)
        (safe_GRID_val hC) (safe_GRID_val hH))
  · exact safePre_not_occurs (by decide)
      (renderedDoc_safe safe_CORE_tmplSeg0 safe_CORE_tmplSeg1 safe_CORE_tmplSeg2
        safe_CORE_tmplSeg3 safe_CORE_tmplSeg4 safe_CORE_tmplSeg5 safe_CORE_tmplSeg6
        safe_CORE_triviaSection (safe_CORE_val hd) (safe_CORE_val hI) (safe_CORE_val hG)
        (safe_CORE_val hC) (safe_CORE_val hH))
  · exact safePre_not_occurs (by decide)
      (renderedDoc_safe safe_HORIZON_tmplSeg0 safe_HORIZON_tmplSeg1 safe_HORIZON_tmplSeg2
        safe_HORIZON_tmplSeg3 safe_HORIZON_tmplSeg4 safe_HORIZON_tmplSeg5 safe_HORIZON_tmplSeg6
        safe_HORIZON_triviaSection (safe_HORIZON_val hd) (safe_HORIZON_val hI)
        (safe_HORIZON_val hG) (safe_HORIZON_val hC) (safe_HORIZON_val hH))
  · exact safePre_not_occurs (by decide)
      (renderedDoc_safe safe_TRIVIA_tmplSeg0 safe_TRIVIA_tmplSeg1 safe_TRIVIA_tmplSeg2
        safe_TRIVIA_tmplSeg3 safe_TRIVIA_tmplSeg4 safe_TRIVIA_tmplSeg5 safe_TRIVIA_tmplSeg6
        safe_TRIVIA_triviaSection (safe_TRIVIA_val hd) (safe_TRIVIA_val hI)
        (safe_TRIVIA_val hG) (safe_TRIVIA_val hC) (safe_TRIVIA_val hH))

/-- A rendered date and a content used to witness the amended C7. -/
def c7wtoday : Chars := "June 10, 2025".toList

/-- Witness content: a brace-free intro paragraph. -/
def c7wcontent : Chars := "INTRO_PARAGRAPH:\nGood morning from the markets desk".toList

/-- Closed witness for the amended C7: on a brace-free date and content the
parse succeeds and no placeholder token occurs in the output. -/
theorem c7_no_tokens_witness :
    lbrace ∉ c7wtoday ∧ lbrace ∉ c7wcontent ∧ c7wcontent ≠ [] ∧
    (∃ html, parse_content_to_html c7wtoday (some c7wcontent) = some html ∧
      ∀ tok ∈ placeholderTokens, ¬ Occurs tok html) :=
  ⟨by decide, by decide, by decide,
    c7_no_tokens c7wtoday c7wcontent (by decide) (by decide) (by decide)⟩

/-- Counterexample content: a core story, long enough to be kept, that
contains the literal token `\x7bDATE\x7d`. -/
def c7xcontent : Chars :=
  "CORE_STORIES:\nThe markets rallied on \x7bDATE\x7d as policy shifted again today".toList

unseal parseLoop replaceAll subTickers in
/-- C7 counterexample: on a non-empty input whose story text contains the
literal token `\x7bDATE\x7d`, the parse succeeds and the final HTML does
contain an occurrence of a placeholder token — the DATE substitution runs
before CORE_STORIES is substituted, so the token carried by the story
survives every pass (app.py 851-854). -/
theorem c7_counterexample :
    c7xcontent ≠ [] ∧
    ∃ html, parse_content_to_html c7wtoday (some c7xcontent) = some html ∧
      Occurs tokDATE html := by
  refine ⟨by decide, ?_⟩
  have hd : lbrace ∉ c7wtoday := by decide
  have hI : lbrace ∉ (parseSections c7xcontent).introPar := by decide
  have hG : lbrace ∉ (parseSections c7xcontent).marketGrid := by decide
  have hH : lbrace ∉ (parseSections c7xcontent).horizonStories := by decide
  have hCH : SafePre tokHORIZON (parseSections c7xcontent).coreStories := by decide
  have hCT : SafePre tokTRIVIA (parseSections c7xcontent).coreStories := by decide
  have hshape := fillTemplate_shape_gen c7wtoday (parseSections c7xcontent).introPar
      (parseSections c7xcontent).marketGrid (parseSections c7xcontent).coreStories
      (parseSections c7xcontent).horizonStories
      (safe_INTRO_val hd) (safe_GRID_val hd) (safe_CORE_val hd) (safe_HORIZON_val hd)
      (safe_TRIVIA_val hd)
      (safe_GRID_val hI) (safe_CORE_val hI) (safe_HORIZON_val hI) (safe_TRIVIA_val hI)
      (safe_CORE_val hG) (safe_HORIZON_val hG) (safe_TRIVIA_val hG)
      hCH hCT
      (safe_TRIVIA_val hH)
  refine ⟨renderedDoc c7wtoday (parseSections c7xcontent).introPar
      (parseSections c7xcontent).marketGrid (parseSections c7xcontent).coreStories
      (parseSections c7xcontent).horizonStories, ?_, ?_⟩
  · show (if c7xcontent = [] then (none : Option Chars)
      else some (fillTemplate c7wtoday (parseSections c7xcontent))) =
      some (renderedDoc c7wtoday (parseSections c7xcontent).introPar
        (parseSections c7xcontent).marketGrid (parseSections c7xcontent).coreStories
        (parseSections c7xcontent).horizonStories)
    rw [if_neg (by decide : ¬ c7xcontent = [])]
    exact congrArg some hshape
  · unfold renderedDoc
    apply occurs_append_right
    apply occurs_append_right
    apply occurs_append_right
    apply occurs_append_right
    apply occurs_append_right
    apply occurs_append_right
    apply occurs_append_right
    apply occurs_append_left
    exact (occursB_iff _ _).mp (by decide)
